import Mathlib

/-!
# The floating-point output checker `src/checkers/float.cpp`

The program reads three integers `usrCount corrCount paramCount`, then `usrCount`
candidate values, then `corrCount` reference values, then (when `paramCount` is 1)
the tolerance `eps`; it prints `OK` or `WA` and returns 0, or returns 1 without
printing when `paramCount` is not 1.

The embedding is by explicit state passing.  The state holds the unread part of the
standard input (a list of tokens), the text written to the standard output, and the
six global variables of the program.  A `double` is an IEEE 754 binary64 value; the
finite ones are represented by their exact rational value, and every arithmetic
result is rounded to the nearest binary64 value, ties to even.
-/

namespace Checker

/-! ## The type `double` -/

/-- A value of the C++ type `double` (IEEE 754 binary64): not-a-number, an infinity
with its sign, or a finite value given by its exact rational value.  The two zeros
`+0.0` and `-0.0` are both `fin 0`: subtraction, `abs` and `<=`, the only operations
the program applies, give the same value for either zero. -/
inductive Double where
  | nan
  | inf (neg : Bool)
  | fin (v : ℚ)
  deriving DecidableEq

/-- Nearest integer to `x`, a tie going to the even neighbour. -/
def roundHalfEven (x : ℚ) : ℤ :=
  if x - ⌊x⌋ < 1 / 2 then ⌊x⌋
  else if 1 / 2 < x - ⌊x⌋ then ⌊x⌋ + 1
  else if ⌊x⌋ % 2 = 0 then ⌊x⌋ else ⌊x⌋ + 1

/-- Rounding of an exact value to binary64, round-to-nearest ties-to-even.  The
binade exponent is `⌊log₂ |x|⌋`, not below `-1022` (below it the values are
subnormal); the spacing of binary64 values in the binade is `2 ^ (e - 52)` (a 53 bit
significand); a rounded magnitude of `2 ^ 1024` or more overflows to the infinity of
the sign of `x`. -/
@[irreducible]
def rnd (x : ℚ) : Double :=
  let e : ℤ := max (Int.log 2 |x|) (-1022)
  let ulp : ℚ := 2 ^ (e - 52)
  let y : ℚ := roundHalfEven (x / ulp) * ulp
  if 2 ^ 1024 ≤ |y| then Double.inf (decide (x < 0)) else Double.fin y

/-- The C++ `u - c` on `double`. -/
def fsub : Double → Double → Double
  | Double.fin a, Double.fin b => rnd (a - b)
  | Double.fin _, Double.inf s => Double.inf (!s)
  | Double.inf s, Double.fin _ => Double.inf s
  | Double.inf s, Double.inf t => if s = t then Double.nan else Double.inf s
  | Double.nan, _ => Double.nan
  | _, Double.nan => Double.nan

/-- The C++ `abs` on `double` (`std::abs(double)`, in scope through `<cstdlib>` and
`using namespace std`). -/
def fabs : Double → Double
  | Double.nan => Double.nan
  | Double.inf _ => Double.inf false
  | Double.fin v => Double.fin |v|

/-- The C++ `a <= b` on `double`: false as soon as one side is not a number. -/
def fle : Double → Double → Bool
  | Double.fin a, Double.fin b => decide (a ≤ b)
  | Double.fin _, Double.inf s => !s
  | Double.inf s, Double.fin _ => s
  | Double.inf s, Double.inf t => s || !t
  | Double.nan, _ => false
  | _, Double.nan => false

/-- The C++ `a > b` on `double`: false as soon as one side is not a number. -/
def fgt : Double → Double → Bool
  | Double.fin a, Double.fin b => decide (b < a)
  | Double.fin _, Double.inf s => s
  | Double.inf s, Double.fin _ => !s
  | Double.inf s, Double.inf t => !s && t
  | Double.nan, _ => false
  | _, Double.nan => false

/-- The C++ `a == b` on `double`: false as soon as one side is not a number. -/
def feq : Double → Double → Bool
  | Double.fin a, Double.fin b => decide (a = b)
  | Double.inf s, Double.inf t => decide (s = t)
  | _, _ => false

/-! ## The standard input -/

/-- A whitespace-delimited token of the standard input: an integer literal (an
optional sign and decimal digits), or another decimal literal (with a fraction point
or an exponent) of the given exact value. -/
inductive Token where
  | int (n : ℤ)
  | real (q : ℚ)
  deriving DecidableEq

/-- The exact value a token denotes. -/
def Token.value : Token → ℚ
  | Token.int n => n
  | Token.real q => q

/-- How a run leaves the model: an extraction from `cin` that does not succeed (the
input is exhausted or the token is not a literal of the requested type or range;
the program then goes on with indeterminate values), or an index outside a
vector. -/
inductive Fault where
  | extraction
  | outOfBounds
  deriving DecidableEq

/-- The extraction `cin >> n` for `int n`: the next token has to be an integer
literal that fits 32 bits. -/
def readInt : List Token → Except Fault (ℤ × List Token)
  | Token.int n :: rest =>
    if -2 ^ 31 ≤ n ∧ n < 2 ^ 31 then Except.ok (n, rest) else Except.error Fault.extraction
  | _ => Except.error Fault.extraction

/-- The value `cin >> cur` stores for `double cur` on the token `t`: the binary64
value nearest to the literal; a literal that overflows makes the extraction fail. -/
def Token.toDouble? (t : Token) : Option Double :=
  match rnd t.value with
  | Double.fin v => some (Double.fin v)
  | _ => none

/-- The extraction `cin >> cur` for `double cur`. -/
def readDouble : List Token → Except Fault (Double × List Token)
  | t :: rest =>
    match t.toDouble? with
    | some d => Except.ok (d, rest)
    | none => Except.error Fault.extraction
  | [] => Except.error Fault.extraction

/-! ## The program -/

/-- The state of a run: the unread input, the text written so far, and the globals
`usrCount`, `corrCount`, `paramCount`, `usr`, `corr`, `eps`. -/
structure State where
  cin : List Token
  cout : String
  usrCount : ℤ
  corrCount : ℤ
  paramCount : ℤ
  usr : List Double
  corr : List Double
  eps : Double

/-- The state at program start on the given input: nothing written, the globals
zero-initialised and the vectors empty. -/
def State.init (input : List Token) : State :=
  { cin := input, cout := "", usrCount := 0, corrCount := 0, paramCount := 0,
    usr := [], corr := [], eps := Double.fin 0 }

/-- The function `same`: `abs(u-c) <= eps`; the global `eps` it reads is passed as
its first argument. -/
def same (eps u c : Double) : Bool :=
  fle (fabs (fsub u c)) eps

/-- The statement `cin >> usrCount >> corrCount >> paramCount;`. -/
def readCounts (s : State) : Except Fault State :=
  match readInt s.cin with
  | Except.error f => Except.error f
  | Except.ok (a, r1) =>
    match readInt r1 with
    | Except.error f => Except.error f
    | Except.ok (b, r2) =>
      match readInt r2 with
      | Except.error f => Except.error f
      | Except.ok (p, r3) =>
        Except.ok { s with cin := r3, usrCount := a, corrCount := b, paramCount := p }

/-- The first loop, `for (int i = 0; i < usrCount; ++i) { double cur; cin >> cur;
usr.push_back(cur); }`, by recursion on the number of iterations left. -/
def readUsr : ℕ → State → Except Fault State
  | 0, s => Except.ok s
  | k + 1, s =>
    match readDouble s.cin with
    | Except.error f => Except.error f
    | Except.ok (cur, rest) => readUsr k { s with cin := rest, usr := s.usr ++ [cur] }

/-- The second loop, the same for `corrCount` and `corr`. -/
def readCorr : ℕ → State → Except Fault State
  | 0, s => Except.ok s
  | k + 1, s =>
    match readDouble s.cin with
    | Except.error f => Except.error f
    | Except.ok (cur, rest) => readCorr k { s with cin := rest, corr := s.corr ++ [cur] }

/-- The statement `cin >> eps;`. -/
def readEps (s : State) : Except Fault State :=
  match readDouble s.cin with
  | Except.error f => Except.error f
  | Except.ok (e, rest) => Except.ok { s with cin := rest, eps := e }

/-- The statement `cout << text;`. -/
def State.print (s : State) (text : String) : State :=
  { s with cout := s.cout ++ text }

/-- The last loop and what follows it, from index `i` with `k` iterations left:
`for (; i < usrCount; ++i) if (!same(usr[i], corr[i])) { cout << "WA\n"; return 0; }`
then `cout << "OK\n"; return 0;`.  The result is the exit status and the final
state. -/
def compareLoop : ℕ → ℕ → State → Except Fault (ℤ × State)
  | 0, _, s => Except.ok (0, s.print "OK\n")
  | k + 1, i, s =>
    match s.usr[i]?, s.corr[i]? with
    | some u, some c =>
      if !same s.eps u c then Except.ok (0, s.print "WA\n")
      else compareLoop k (i + 1) s
    | _, _ => Except.error Fault.outOfBounds

/-- The function `main`, statement by statement: the exit status and the final
state. -/
def main (s0 : State) : Except Fault (ℤ × State) :=
  match readCounts s0 with
  | Except.error f => Except.error f
  | Except.ok s1 =>
    match readUsr s1.usrCount.toNat s1 with
    | Except.error f => Except.error f
    | Except.ok s2 =>
      match readCorr s2.corrCount.toNat s2 with
      | Except.error f => Except.error f
      | Except.ok s3 =>
        if s3.paramCount ≠ 1 then Except.ok (1, s3)
        else
          match readEps s3 with
          | Except.error f => Except.error f
          | Except.ok s4 =>
            if s4.usrCount ≠ s4.corrCount then Except.ok (0, s4.print "WA\n")
            else compareLoop s4.usrCount.toNat 0 s4

/-- What the caller of the program observes of a finished run: the text on the
standard output and the exit status. -/
def observe : Except Fault (ℤ × State) → Except Fault (String × ℤ)
  | Except.error f => Except.error f
  | Except.ok (status, s) => Except.ok (s.cout, status)

/-- A run of the program on the given standard input. -/
def run (input : List Token) : Except Fault (String × ℤ) :=
  observe (main (State.init input))

/-! ## The stages of `main` on a well-formed input -/

/-- The tokens `ts` are literals whose extraction as `double` gives the values
`ds`, in order. -/
def Parses (ts : List Token) (ds : List Double) : Prop :=
  ts.map Token.toDouble? = ds.map some

/-- The value fits the C++ type `int` (32 bits). -/
def IsInt32 (n : ℤ) : Prop :=
  -2 ^ 31 ≤ n ∧ n < 2 ^ 31

theorem readInt_int (n : ℤ) (h : IsInt32 n) (rest : List Token) :
    readInt (Token.int n :: rest) = Except.ok (n, rest) := by
  unfold IsInt32 at h
  rw [readInt, if_pos h]

theorem readDouble_cons (t : Token) (d : Double) (h : t.toDouble? = some d)
    (rest : List Token) : readDouble (t :: rest) = Except.ok (d, rest) := by
  have unfolded : readDouble (t :: rest) =
      match t.toDouble? with
      | some d => Except.ok (d, rest)
      | none => Except.error Fault.extraction := rfl
  rw [unfolded, h]

theorem Parses.length_eq {ts : List Token} {ds : List Double} (h : Parses ts ds) :
    ts.length = ds.length := by
  have := congrArg List.length h
  simpa using this

theorem readUsr_parses (ds : List Double) :
    ∀ (ts rest : List Token) (s : State), Parses ts ds → s.cin = ts ++ rest →
      readUsr ds.length s = Except.ok { s with cin := rest, usr := s.usr ++ ds } := by
  induction ds with
  | nil =>
    intro ts rest s hp hc
    have hl := hp.length_eq
    simp at hl
    subst hl
    simp at hc
    simp [readUsr, ← hc]
  | cons d ds ih =>
    intro ts rest s hp hc
    cases ts with
    | nil => simp [Parses] at hp
    | cons t ts =>
      simp only [Parses, List.map_cons, List.cons.injEq] at hp
      obtain ⟨ht, hts⟩ := hp
      simp only [List.length_cons, readUsr, hc, List.cons_append, readDouble_cons t d ht]
      rw [ih ts rest _ hts rfl]
      simp

theorem readCorr_parses (ds : List Double) :
    ∀ (ts rest : List Token) (s : State), Parses ts ds → s.cin = ts ++ rest →
      readCorr ds.length s = Except.ok { s with cin := rest, corr := s.corr ++ ds } := by
  induction ds with
  | nil =>
    intro ts rest s hp hc
    have hl := hp.length_eq
    simp at hl
    subst hl
    simp at hc
    simp [readCorr, ← hc]
  | cons d ds ih =>
    intro ts rest s hp hc
    cases ts with
    | nil => simp [Parses] at hp
    | cons t ts =>
      simp only [Parses, List.map_cons, List.cons.injEq] at hp
      obtain ⟨ht, hts⟩ := hp
      simp only [List.length_cons, readCorr, hc, List.cons_append, readDouble_cons t d ht]
      rw [ih ts rest _ hts rfl]
      simp

theorem compareLoop_all (k : ℕ) :
    ∀ (i : ℕ) (s : State), i + k = s.usr.length → s.usr.length = s.corr.length →
      (∀ j (hu : j < s.usr.length) (hc : j < s.corr.length), i ≤ j →
        same s.eps s.usr[j] s.corr[j] = true) →
      compareLoop k i s = Except.ok (0, s.print "OK\n") := by
  induction k with
  | zero => intro i s _ _ _; rfl
  | succ k ih =>
    intro i s hlen heq hall
    have hu : i < s.usr.length := by omega
    have hc : i < s.corr.length := by omega
    simp only [compareLoop, List.getElem?_eq_getElem hu, List.getElem?_eq_getElem hc,
      hall i hu hc le_rfl]
    simp only [Bool.not_true, Bool.false_eq_true, if_false]
    exact ih (i + 1) s (by omega) heq (fun j hj hj' hij => hall j hj hj' (by omega))

theorem compareLoop_some (k : ℕ) :
    ∀ (i : ℕ) (s : State), i + k = s.usr.length → s.usr.length = s.corr.length →
      (∃ j, ∃ (hu : j < s.usr.length) (hc : j < s.corr.length), i ≤ j ∧
        same s.eps s.usr[j] s.corr[j] = false) →
      compareLoop k i s = Except.ok (0, s.print "WA\n") := by
  induction k with
  | zero =>
    intro i s hlen _ hex
    obtain ⟨j, hu, _, hij, _⟩ := hex
    omega
  | succ k ih =>
    intro i s hlen heq hex
    have hu : i < s.usr.length := by omega
    have hc : i < s.corr.length := by omega
    simp only [compareLoop, List.getElem?_eq_getElem hu, List.getElem?_eq_getElem hc]
    cases hsame : same s.eps s.usr[i] s.corr[i] with
    | false => simp
    | true =>
      simp only [Bool.not_true, Bool.false_eq_true, if_false]
      obtain ⟨j, hju, hjc, hij, hj⟩ := hex
      have hne : i ≠ j := by
        rintro rfl
        rw [hsame] at hj
        exact Bool.noConfusion hj
      exact ih (i + 1) s (by omega) heq ⟨j, hju, hjc, by omega, hj⟩

/-! ## Rounding to binary64 -/

theorem log_eq_of_bounds (x : ℚ) (e : ℤ) (hlo : (2 : ℚ) ^ e ≤ x) (hhi : x < 2 ^ (e + 1)) :
    Int.log 2 x = e := by
  have hx : 0 < x := lt_of_lt_of_le (by positivity) hlo
  have h1 : e ≤ Int.log 2 x := by
    rw [← Int.zpow_le_iff_le_log (by norm_num) hx]
    simpa using hlo
  have h2 : Int.log 2 x < e + 1 := by
    rw [← Int.lt_zpow_iff_log_lt (by norm_num) hx]
    simpa using hhi
  omega

theorem abs_sub_roundHalfEven_le (x : ℚ) : |x - roundHalfEven x| ≤ 1 / 2 := by
  have h1 := Int.floor_le x
  have h2 := Int.lt_floor_add_one x
  unfold roundHalfEven
  rw [abs_le]
  split_ifs <;> push_cast <;> constructor <;> linarith

theorem roundHalfEven_eq_of_abs_lt (x : ℚ) (m : ℤ) (h : |x - m| < 1 / 2) :
    roundHalfEven x = m := by
  have h0 := abs_sub_roundHalfEven_le x
  rw [abs_lt] at h
  rw [abs_le] at h0
  have h3 : ((roundHalfEven x - m : ℤ) : ℚ) < 1 := by push_cast; linarith
  have h4 : (-1 : ℚ) < ((roundHalfEven x - m : ℤ) : ℚ) := by push_cast; linarith
  have h5 : roundHalfEven x - m < 1 := by exact_mod_cast h3
  have h6 : -1 < roundHalfEven x - m := by exact_mod_cast h4
  omega

theorem rnd_zero : rnd 0 = Double.fin 0 := by
  unfold rnd
  have h : roundHalfEven 0 = 0 := roundHalfEven_eq_of_abs_lt 0 0 (by norm_num)
  simp [h]

/-- Evaluation of `rnd` in the normal range from a certificate: the binade `e` of
`x` and the integer `m` nearest to `x / 2 ^ (e - 52)`. -/
theorem rnd_eq_fin (x : ℚ) (e m : ℤ) (hlo : (2 : ℚ) ^ e ≤ |x|) (hhi : |x| < 2 ^ (e + 1))
    (he : -1022 ≤ e) (hm : |x / 2 ^ (e - 52) - m| < 1 / 2)
    (hfin : |(m : ℚ) * 2 ^ (e - 52)| < 2 ^ 1024) :
    rnd x = Double.fin (m * 2 ^ (e - 52)) := by
  unfold rnd
  rw [log_eq_of_bounds |x| e hlo hhi, max_eq_left he]
  simp only
  rw [roundHalfEven_eq_of_abs_lt _ m hm, if_neg (not_le.mpr hfin)]

/-- The certificate for a positive `x`. -/
theorem rnd_eq_fin_of_pos (x : ℚ) (e m : ℤ) (hx : 0 < x) (hlo : (2 : ℚ) ^ e ≤ x)
    (hhi : x < 2 ^ (e + 1)) (he : -1022 ≤ e)
    (hm : (m : ℚ) - 1 / 2 < x / 2 ^ (e - 52) ∧ x / 2 ^ (e - 52) < m + 1 / 2)
    (hfin : (m : ℚ) * 2 ^ (e - 52) < 2 ^ 1024) (v : ℚ) (hv : v = m * 2 ^ (e - 52)) :
    rnd x = Double.fin v := by
  have hpos : (0 : ℚ) < 2 ^ (e - 52) := by positivity
  have hm0 : (0 : ℚ) ≤ m := by
    have h1 : (1 : ℚ) ≤ x / 2 ^ (e - 52) := by
      rw [le_div_iff₀ hpos, one_mul]
      refine le_trans ?_ hlo
      exact zpow_le_zpow_right₀ (by norm_num) (by omega)
    have h2 : (-1 : ℚ) < m := by linarith [hm.2]
    have h3 : (-1 : ℤ) < m := by exact_mod_cast h2
    have h4 : (0 : ℤ) ≤ m := by omega
    exact_mod_cast h4
  rw [hv]
  refine rnd_eq_fin x e m ?_ ?_ he ?_ ?_
  · rwa [abs_of_pos hx]
  · rwa [abs_of_pos hx]
  · rw [abs_lt]; constructor <;> linarith [hm.1, hm.2]
  · rwa [abs_of_nonneg (mul_nonneg hm0 hpos.le)]

/-! ## The whole of `main` on a well-formed input -/

/-- The standard input that holds the three counts, then the candidate tokens, then
the reference tokens, then whatever follows. -/
def inputStream (n m p : ℤ) (us cs tail : List Token) : List Token :=
  Token.int n :: Token.int m :: Token.int p :: (us ++ (cs ++ tail))

/-- The input announces `n` candidate values, `m` reference values and `p`
parameters, all three fitting `int`, and holds that many readable literals: the
tokens `us` read as the values `u`, the tokens `cs` as the values `c`. -/
structure WellFormed (n m p : ℤ) (us cs : List Token) (u c : List Double) : Prop where
  usrCount_int : IsInt32 n
  corrCount_int : IsInt32 m
  paramCount_int : IsInt32 p
  usr_parses : Parses us u
  corr_parses : Parses cs c
  usr_length : u.length = n.toNat
  corr_length : c.length = m.toNat

theorem readCounts_inputStream (n m p : ℤ) (rest : List Token) (s : State)
    (hn : IsInt32 n) (hm : IsInt32 m) (hp : IsInt32 p)
    (hc : s.cin = Token.int n :: Token.int m :: Token.int p :: rest) :
    readCounts s =
      Except.ok { s with cin := rest, usrCount := n, corrCount := m, paramCount := p } := by
  unfold readCounts
  rw [hc, readInt_int n hn]
  simp only
  rw [readInt_int m hm]
  simp only
  rw [readInt_int p hp]

/-- The state after the three counts and the two sequences have been read. -/
theorem afterReads {n m p : ℤ} {us cs : List Token} {u c : List Double}
    (hwf : WellFormed n m p us cs u c) (tail : List Token) :
    ∃ s1 s2, readCounts (State.init (inputStream n m p us cs tail)) = Except.ok s1 ∧
      readUsr s1.usrCount.toNat s1 = Except.ok s2 ∧
      readCorr s2.corrCount.toNat s2 =
        Except.ok (State.mk tail "" n m p u c (Double.fin 0)) := by
  refine ⟨State.mk (us ++ (cs ++ tail)) "" n m p [] [] (Double.fin 0),
    State.mk (cs ++ tail) "" n m p u [] (Double.fin 0), readCounts_inputStream n m p _ _ hwf.usrCount_int hwf.corrCount_int
    hwf.paramCount_int rfl, ?_, ?_⟩
  · simp only [← hwf.usr_length]
    exact readUsr_parses u us (cs ++ tail) _ hwf.usr_parses rfl
  · simp only [← hwf.corr_length]
    rw [readCorr_parses c cs tail _ hwf.corr_parses rfl]
    simp [State.init]

/-- With a parameter count other than 1, `main` returns 1 right after the two read
loops. -/
theorem main_paramCount_ne_one {n m p : ℤ} {us cs : List Token} {u c : List Double}
    (hwf : WellFormed n m p us cs u c) (hp : p ≠ 1) (tail : List Token) :
    main (State.init (inputStream n m p us cs tail)) =
      Except.ok (1, State.mk tail "" n m p u c (Double.fin 0)) := by
  obtain ⟨s1, s2, h1, h2, h3⟩ := afterReads hwf tail
  unfold main
  rw [h1]
  simp only
  rw [h2]
  simp only
  rw [h3]
  simp only [ne_eq, hp, not_false_eq_true, if_true]

/-- With parameter count 1, `main` reads the tolerance and goes on to the length test
and the comparison loop. -/
theorem main_paramCount_one {n m : ℤ} {us cs : List Token} {u c : List Double}
    (hwf : WellFormed n m 1 us cs u c) (e : Token) (eps : Double)
    (he : e.toDouble? = some eps) (tail : List Token) :
    main (State.init (inputStream n m 1 us cs (e :: tail))) =
      if n ≠ m then Except.ok (0, (State.mk tail "" n m 1 u c eps).print "WA\n")
      else compareLoop n.toNat 0 (State.mk tail "" n m 1 u c eps) := by
  obtain ⟨s1, s2, h1, h2, h3⟩ := afterReads hwf (e :: tail)
  unfold main
  rw [h1]
  simp only
  rw [h2]
  simp only
  rw [h3]
  simp only [ne_eq, not_true_eq_false, if_false, readEps, readDouble_cons e eps he]

/-! ## What a run shows, case by case -/

theorem run_paramCount_ne_one {n m p : ℤ} {us cs : List Token} {usr corr : List Double}
    (hwf : WellFormed n m p us cs usr corr) (hp : p ≠ 1) (tail : List Token) :
    run (inputStream n m p us cs tail) = Except.ok ("", 1) := by
  unfold run
  rw [main_paramCount_ne_one hwf hp tail]
  rfl

theorem run_length_mismatch {n m : ℤ} {us cs : List Token} {usr corr : List Double}
    (hwf : WellFormed n m 1 us cs usr corr) (e : Token) (eps : Double)
    (he : e.toDouble? = some eps) (tail : List Token) (hnm : n ≠ m) :
    run (inputStream n m 1 us cs (e :: tail)) = Except.ok ("WA\n", 0) := by
  unfold run
  rw [main_paramCount_one hwf e eps he tail, if_pos hnm]
  rfl

theorem run_all_same {n : ℤ} {us cs : List Token} {usr corr : List Double}
    (hwf : WellFormed n n 1 us cs usr corr) (e : Token) (eps : Double)
    (he : e.toDouble? = some eps) (tail : List Token)
    (hall : ∀ i (hu : i < usr.length) (hc : i < corr.length), same eps usr[i] corr[i] = true) :
    run (inputStream n n 1 us cs (e :: tail)) = Except.ok ("OK\n", 0) := by
  unfold run
  rw [main_paramCount_one hwf e eps he tail, if_neg (not_not.mpr rfl)]
  rw [compareLoop_all n.toNat 0 _ (by simpa using hwf.usr_length.symm)
    (by simpa using hwf.usr_length.trans hwf.corr_length.symm)
    (fun j hu hc _ => hall j hu hc)]
  rfl

theorem run_some_differ {n : ℤ} {us cs : List Token} {usr corr : List Double}
    (hwf : WellFormed n n 1 us cs usr corr) (e : Token) (eps : Double)
    (he : e.toDouble? = some eps) (tail : List Token)
    (i : ℕ) (hu : i < usr.length) (hc : i < corr.length) (hi : same eps usr[i] corr[i] = false) :
    run (inputStream n n 1 us cs (e :: tail)) = Except.ok ("WA\n", 0) := by
  unfold run
  rw [main_paramCount_one hwf e eps he tail, if_neg (not_not.mpr rfl)]
  rw [compareLoop_some n.toNat 0 _ (by simpa using hwf.usr_length.symm)
    (by simpa using hwf.usr_length.trans hwf.corr_length.symm)
    ⟨i, hu, hc, Nat.zero_le i, hi⟩]
  rfl

theorem fle_eq_false_of_fgt {a b : Double} (h : fgt a b = true) : fle a b = false := by
  cases a <;> cases b <;> simp_all [fgt, fle]

/-! ## Concrete literals -/

theorem toDouble?_real (q v : ℚ) (h : rnd q = Double.fin v) :
    (Token.real q).toDouble? = some (Double.fin v) := by
  unfold Token.toDouble?
  rw [Token.value, h]

theorem rnd_one : rnd 1 = Double.fin 1 := by
  apply rnd_eq_fin_of_pos 1 0 (2 ^ 52) <;> norm_num

theorem rnd_two : rnd 2 = Double.fin 2 := by
  apply rnd_eq_fin_of_pos 2 1 (2 ^ 52) <;> norm_num

theorem rnd_five : rnd 5 = Double.fin 5 := by
  apply rnd_eq_fin_of_pos 5 2 (5 * 2 ^ 50) <;> norm_num

/-- The literal `0.001` reads as `1152921504606847 / 2 ^ 60`. -/
theorem rnd_thousandth : rnd (1 / 1000) = Double.fin (1152921504606847 / 2 ^ 60) := by
  apply rnd_eq_fin_of_pos (1 / 1000) (-10) 4611686018427388 <;> norm_num

/-- The literal `0.05` reads as `3602879701896397 / 2 ^ 56`, a little above 1/20. -/
theorem rnd_twentieth : rnd (1 / 20) = Double.fin (3602879701896397 / 2 ^ 56) := by
  apply rnd_eq_fin_of_pos (1 / 20) (-5) 7205759403792794 <;> norm_num

/-- The literal `2.1` reads as `4728779608739021 / 2 ^ 51`. -/
theorem rnd_two_and_tenth : rnd (21 / 10) = Double.fin (4728779608739021 / 2 ^ 51) := by
  apply rnd_eq_fin_of_pos (21 / 10) 1 4728779608739021 <;> norm_num

/-- The literal `1.05` reads as `4728779608739021 / 2 ^ 52`. -/
theorem rnd_one_and_twentieth :
    rnd (21 / 20) = Double.fin (4728779608739021 / 2 ^ 52) := by
  apply rnd_eq_fin_of_pos (21 / 20) 0 4728779608739021 <;> norm_num

/-! ## The claims -/

/-- C1: on an input with `paramCount = 1` and `usrCount = corrCount = n` whose
values satisfy `abs(usr[i] - corr[i]) <= eps` at every index `i < n`, the program
prints `OK` (and exits with status 0). -/
theorem within_tolerance_prints_OK (n : ℤ) (us cs : List Token) (e : Token)
    (tail : List Token) (usr corr : List Double) (eps : Double)
    (hwf : WellFormed n n 1 us cs usr corr) (he : e.toDouble? = some eps)
    (hall : ∀ i (hu : i < usr.length) (hc : i < corr.length),
      fle (fabs (fsub usr[i] corr[i])) eps = true) :
    run (inputStream n n 1 us cs (e :: tail)) = Except.ok ("OK\n", 0) :=
  run_all_same hwf e eps he tail hall

/-- C1 at candidate `[1.0, 2.0]`, reference `[1.0, 2.0]`, `eps = 0.001`. -/
theorem within_tolerance_prints_OK_witness :
    run (inputStream 2 2 1 [Token.real 1, Token.real 2] [Token.real 1, Token.real 2]
      [Token.real (1 / 1000)]) = Except.ok ("OK\n", 0) :=
  within_tolerance_prints_OK 2 [Token.real 1, Token.real 2] [Token.real 1, Token.real 2]
    (Token.real (1 / 1000)) [] [Double.fin 1, Double.fin 2] [Double.fin 1, Double.fin 2]
    (Double.fin (1152921504606847 / 2 ^ 60))
    { usrCount_int := by unfold IsInt32; norm_num
      corrCount_int := by unfold IsInt32; norm_num
      paramCount_int := by unfold IsInt32; norm_num
      usr_parses := by
        simp [Parses, toDouble?_real _ _ rnd_one, toDouble?_real _ _ rnd_two]
      corr_parses := by
        simp [Parses, toDouble?_real _ _ rnd_one, toDouble?_real _ _ rnd_two]
      usr_length := rfl
      corr_length := rfl }
    (toDouble?_real _ _ rnd_thousandth)
    (by
      intro i hu hc
      have hi : i < 2 := hu
      interval_cases i <;> simp [fsub, fabs, fle, rnd_zero] <;> positivity)

/-- The literal `-1e-17` reads as `-6490371073168535 / 2 ^ 109`. -/
theorem rnd_neg_1e17 :
    rnd (-1 / 10 ^ 17) = Double.fin (-6490371073168535 / 2 ^ 109) := by
  have habs : |(-1 / 10 ^ 17 : ℚ)| = 1 / 10 ^ 17 := by
    rw [abs_of_neg (by norm_num)]
    norm_num
  have h := rnd_eq_fin (-1 / 10 ^ 17) (-57) (-6490371073168535) (by rw [habs]; norm_num)
    (by rw [habs]; norm_num) (by norm_num) (by norm_num [abs_lt]) (by norm_num [abs_lt])
  rw [h]
  norm_num

/-- C2, as the claim words it, fails: on candidate `[1.0]`, reference `[-1e-17]`,
`eps = 1.0` the program holds the values `1`, `-6490371073168535 / 2 ^ 109` and `1`,
the real-valued difference of the first two is greater than `eps`, and the program
prints `OK`, not `WA`: the subtraction `u - c` is rounded to the `double` `1.0`. -/
theorem real_difference_above_eps_prints_OK :
    (Token.real 1).toDouble? = some (Double.fin 1) ∧
    (Token.real (-1 / 10 ^ 17)).toDouble? =
      some (Double.fin (-6490371073168535 / 2 ^ 109)) ∧
    (1 : ℚ) < |1 - -6490371073168535 / 2 ^ 109| ∧
    run (inputStream 1 1 1 [Token.real 1] [Token.real (-1 / 10 ^ 17)] [Token.real 1])
      = Except.ok ("OK\n", 0) ∧
    run (inputStream 1 1 1 [Token.real 1] [Token.real (-1 / 10 ^ 17)] [Token.real 1])
      ≠ Except.ok ("WA\n", 0) := by
  have hwf : WellFormed 1 1 1 [Token.real 1] [Token.real (-1 / 10 ^ 17)]
      [Double.fin 1] [Double.fin (-6490371073168535 / 2 ^ 109)] :=
    { usrCount_int := by unfold IsInt32; norm_num
      corrCount_int := by unfold IsInt32; norm_num
      paramCount_int := by unfold IsInt32; norm_num
      usr_parses := by simp [Parses, toDouble?_real _ _ rnd_one]
      corr_parses := by simp [Parses, toDouble?_real _ _ rnd_neg_1e17]
      usr_length := rfl
      corr_length := rfl }
  have hsub : rnd (1 - -6490371073168535 / 2 ^ 109) = Double.fin 1 := by
    apply rnd_eq_fin_of_pos _ 0 (2 ^ 52) <;> norm_num
  have hsame : same (Double.fin 1) (Double.fin 1)
      (Double.fin (-6490371073168535 / 2 ^ 109)) = true := by
    simp only [same, fsub, hsub, fabs, fle]
    norm_num
  have hrun := run_all_same hwf (Token.real 1) _ (toDouble?_real _ _ rnd_one) []
    (by
      intro i hu hc
      have hi : i < 1 := hu
      interval_cases i
      exact hsame)
  refine ⟨toDouble?_real _ _ rnd_one, toDouble?_real _ _ rnd_neg_1e17, ?_, hrun, ?_⟩
  · rw [abs_of_pos (by norm_num)]
    norm_num
  · rw [hrun]
    simp

/-- C2, as amended: on an input with `paramCount = 1` and `usrCount = corrCount = n`,
if at some index `i < n` the difference the program computes, `abs(usr[i] - corr[i])`
rounded to `double` (a `double`, not an integer: differences below 1 count), is
greater than `eps`, the program prints `WA`, whatever the other elements are. -/
theorem exceeds_tolerance_prints_WA (n : ℤ) (us cs : List Token) (e : Token)
    (tail : List Token) (usr corr : List Double) (eps : Double)
    (hwf : WellFormed n n 1 us cs usr corr) (he : e.toDouble? = some eps)
    (i : ℕ) (hu : i < usr.length) (hc : i < corr.length)
    (hdiff : fgt (fabs (fsub usr[i] corr[i])) eps = true) :
    run (inputStream n n 1 us cs (e :: tail)) = Except.ok ("WA\n", 0) :=
  run_some_differ hwf e eps he tail i hu hc (fle_eq_false_of_fgt hdiff)

/-- C2 as amended, at candidate `[1.0, 2.1]`, reference `[1.0, 2.0]`, `eps = 0.05`: the
difference at index 1 is `225179981368525 / 2 ^ 51`, about 0.1. -/
theorem exceeds_tolerance_prints_WA_witness :
    run (inputStream 2 2 1 [Token.real 1, Token.real (21 / 10)]
      [Token.real 1, Token.real 2] [Token.real (1 / 20)]) = Except.ok ("WA\n", 0) :=
  exceeds_tolerance_prints_WA 2 [Token.real 1, Token.real (21 / 10)]
    [Token.real 1, Token.real 2] (Token.real (1 / 20)) []
    [Double.fin 1, Double.fin (4728779608739021 / 2 ^ 51)] [Double.fin 1, Double.fin 2]
    (Double.fin (3602879701896397 / 2 ^ 56))
    { usrCount_int := by unfold IsInt32; norm_num
      corrCount_int := by unfold IsInt32; norm_num
      paramCount_int := by unfold IsInt32; norm_num
      usr_parses := by
        simp [Parses, toDouble?_real _ _ rnd_one, toDouble?_real _ _ rnd_two_and_tenth]
      corr_parses := by
        simp [Parses, toDouble?_real _ _ rnd_one, toDouble?_real _ _ rnd_two]
      usr_length := rfl
      corr_length := rfl }
    (toDouble?_real _ _ rnd_twentieth) 1 (by simp) (by simp)
    (by
      have hsub : rnd (4728779608739021 / 2 ^ 51 - 2) =
          Double.fin (225179981368525 / 2 ^ 51) := by
        apply rnd_eq_fin_of_pos _ (-4) 7205759403792800 <;> norm_num
      show fgt (fabs (fsub (Double.fin (4728779608739021 / 2 ^ 51)) (Double.fin 2)))
        (Double.fin (3602879701896397 / 2 ^ 56)) = true
      simp only [fsub, hsub, fabs, fgt]
      norm_num [abs_of_pos])

/-- C3: on an input with `paramCount != 1` the program writes nothing and exits with
status 1, whatever the two counts and the values are, also when the counts differ:
the test of `paramCount` comes before the test of the lengths. -/
theorem paramCount_ne_one_exits_1 (n m p : ℤ) (us cs tail : List Token)
    (usr corr : List Double) (hwf : WellFormed n m p us cs usr corr) (hp : p ≠ 1) :
    run (inputStream n m p us cs tail) = Except.ok ("", 1) :=
  run_paramCount_ne_one hwf hp tail

/-- C3 at `paramCount = 2` with a candidate of length 1 and a reference of length 2. -/
theorem paramCount_ne_one_exits_1_witness :
    run (inputStream 1 2 2 [Token.real 1] [Token.real 1, Token.real 2]
      [Token.real (1 / 20), Token.real (1 / 20)]) = Except.ok ("", 1) :=
  paramCount_ne_one_exits_1 1 2 2 [Token.real 1] [Token.real 1, Token.real 2]
    [Token.real (1 / 20), Token.real (1 / 20)] [Double.fin 1] [Double.fin 1, Double.fin 2]
    { usrCount_int := by unfold IsInt32; norm_num
      corrCount_int := by unfold IsInt32; norm_num
      paramCount_int := by unfold IsInt32; norm_num
      usr_parses := by simp [Parses, toDouble?_real _ _ rnd_one]
      corr_parses := by
        simp [Parses, toDouble?_real _ _ rnd_one, toDouble?_real _ _ rnd_two]
      usr_length := rfl
      corr_length := rfl }
    (by decide)

/-- The value `2 ^ 1000`, about `1e301`, is a binary64 value. -/
theorem rnd_two_pow_1000 : rnd (2 ^ 1000) = Double.fin (2 ^ 1000) := by
  apply rnd_eq_fin_of_pos (2 ^ 1000) 1000 (2 ^ 52) <;> norm_num

/-- C4: on an input with `paramCount = 1` and `usrCount != corrCount` the program
prints `WA`, whatever the values of both sequences and whatever the tolerance. -/
theorem length_mismatch_prints_WA (n m : ℤ) (us cs : List Token) (e : Token)
    (tail : List Token) (usr corr : List Double) (eps : Double)
    (hwf : WellFormed n m 1 us cs usr corr) (he : e.toDouble? = some eps)
    (hnm : n ≠ m) :
    run (inputStream n m 1 us cs (e :: tail)) = Except.ok ("WA\n", 0) :=
  run_length_mismatch hwf e eps he tail hnm

/-- C4 at candidate `[1.0]`, reference `[1.0, 2.0]` and the tolerance `2 ^ 1000`. -/
theorem length_mismatch_prints_WA_witness :
    run (inputStream 1 2 1 [Token.real 1] [Token.real 1, Token.real 2]
      [Token.real (2 ^ 1000)]) = Except.ok ("WA\n", 0) :=
  length_mismatch_prints_WA 1 2 [Token.real 1] [Token.real 1, Token.real 2]
    (Token.real (2 ^ 1000)) [] [Double.fin 1] [Double.fin 1, Double.fin 2]
    (Double.fin (2 ^ 1000))
    { usrCount_int := by unfold IsInt32; norm_num
      corrCount_int := by unfold IsInt32; norm_num
      paramCount_int := by unfold IsInt32; norm_num
      usr_parses := by simp [Parses, toDouble?_real _ _ rnd_one]
      corr_parses := by
        simp [Parses, toDouble?_real _ _ rnd_one, toDouble?_real _ _ rnd_two]
      usr_length := rfl
      corr_length := rfl }
    (toDouble?_real _ _ rnd_two_pow_1000) (by decide)

theorem fle_of_feq {a b : Double} (h : feq a b = true) : fle a b = true := by
  cases a <;> cases b <;> simp_all [feq, fle]

/-- The literal `1.5` is a binary64 value. -/
theorem rnd_three_halves : rnd (3 / 2) = Double.fin (3 / 2) := by
  apply rnd_eq_fin_of_pos (3 / 2) 0 (3 * 2 ^ 51) <;> norm_num

/-- The literal `0.5` is a binary64 value. -/
theorem rnd_half : rnd (1 / 2) = Double.fin (1 / 2) := by
  apply rnd_eq_fin_of_pos (1 / 2) (-1) (2 ^ 52) <;> norm_num

/-- C5, the example of the claim: on candidate `[1.05]`, reference `[1.00]`,
`eps = 0.05` the program prints `WA`, not `OK`.  The three literals are read as the
nearest binary64 values; `1.05 - 1.00` is then exactly `225179981368525 / 2 ^ 52`,
which is greater than the value `3602879701896397 / 2 ^ 56` read for `0.05`. -/
theorem boundary_example_prints_WA :
    run (inputStream 1 1 1 [Token.real (21 / 20)] [Token.real 1] [Token.real (1 / 20)])
        = Except.ok ("WA\n", 0) ∧
      run (inputStream 1 1 1 [Token.real (21 / 20)] [Token.real 1] [Token.real (1 / 20)])
        ≠ Except.ok ("OK\n", 0) := by
  have hwf : WellFormed 1 1 1 [Token.real (21 / 20)] [Token.real 1]
      [Double.fin (4728779608739021 / 2 ^ 52)] [Double.fin 1] :=
    { usrCount_int := by unfold IsInt32; norm_num
      corrCount_int := by unfold IsInt32; norm_num
      paramCount_int := by unfold IsInt32; norm_num
      usr_parses := by simp [Parses, toDouble?_real _ _ rnd_one_and_twentieth]
      corr_parses := by simp [Parses, toDouble?_real _ _ rnd_one]
      usr_length := rfl
      corr_length := rfl }
  have hsub : rnd (4728779608739021 / 2 ^ 52 - 1) =
      Double.fin (225179981368525 / 2 ^ 52) := by
    apply rnd_eq_fin_of_pos _ (-5) 7205759403792800 <;> norm_num
  have hdiff : same (Double.fin (3602879701896397 / 2 ^ 56))
      (Double.fin (4728779608739021 / 2 ^ 52)) (Double.fin 1) = false := by
    simp only [same, fsub, hsub, fabs, fle]
    norm_num [abs_of_pos]
  have hrun := run_some_differ hwf (Token.real (1 / 20)) _
    (toDouble?_real _ _ rnd_twentieth) [] 0 (by simp) (by simp) hdiff
  rw [hrun]
  exact ⟨rfl, by simp⟩

/-- C5, as amended: the tolerance test is not strict.  Whenever the computed
difference `abs(u - c)` equals `eps` (as `double`, by `==`), `same(u, c)` accepts
the pair; so equal-length sequences whose every computed difference equals `eps`
get the verdict `OK`. -/
theorem difference_equal_to_eps_is_accepted :
    (∀ u c eps : Double, feq (fabs (fsub u c)) eps = true → same eps u c = true) ∧
    (∀ (n : ℤ) (us cs : List Token) (e : Token) (tail : List Token)
      (usr corr : List Double) (eps : Double),
      WellFormed n n 1 us cs usr corr → e.toDouble? = some eps →
      (∀ i (hu : i < usr.length) (hc : i < corr.length),
        feq (fabs (fsub usr[i] corr[i])) eps = true) →
      run (inputStream n n 1 us cs (e :: tail)) = Except.ok ("OK\n", 0)) :=
  ⟨fun _ _ _ h => fle_of_feq h,
   fun _ _ _ e _ _ _ eps hwf he hall =>
    run_all_same hwf e eps he _ (fun i hu hc => fle_of_feq (hall i hu hc))⟩

/-- C5 as amended, at candidate `[1.5]`, reference `[1.0]`, `eps = 0.5`, three
binary64 values: the difference is exactly `eps` and the verdict is `OK`. -/
theorem difference_equal_to_eps_is_accepted_witness :
    same (Double.fin (1 / 2)) (Double.fin (3 / 2)) (Double.fin 1) = true ∧
    run (inputStream 1 1 1 [Token.real (3 / 2)] [Token.real 1] [Token.real (1 / 2)])
      = Except.ok ("OK\n", 0) := by
  have hsub : rnd (3 / 2 - 1) = Double.fin (1 / 2) := by
    rw [show (3 / 2 - 1 : ℚ) = 1 / 2 by norm_num]
    exact rnd_half
  have hfeq : feq (fabs (fsub (Double.fin (3 / 2)) (Double.fin 1))) (Double.fin (1 / 2))
      = true := by
    simp only [fsub, hsub, fabs, feq]
    norm_num [abs_of_pos]
  refine ⟨difference_equal_to_eps_is_accepted.1 _ _ _ hfeq,
    difference_equal_to_eps_is_accepted.2 1 [Token.real (3 / 2)] [Token.real 1]
      (Token.real (1 / 2)) [] [Double.fin (3 / 2)] [Double.fin 1] (Double.fin (1 / 2))
      { usrCount_int := by unfold IsInt32; norm_num
        corrCount_int := by unfold IsInt32; norm_num
        paramCount_int := by unfold IsInt32; norm_num
        usr_parses := by simp [Parses, toDouble?_real _ _ rnd_three_halves]
        corr_parses := by simp [Parses, toDouble?_real _ _ rnd_one]
        usr_length := rfl
        corr_length := rfl }
      (toDouble?_real _ _ rnd_half) ?_⟩
  intro i hu hc
  have hi : i < 1 := hu
  interval_cases i
  exact hfeq

theorem run_equal_lengths {n : ℤ} {us cs : List Token} {usr corr : List Double}
    (hwf : WellFormed n n 1 us cs usr corr) (e : Token) (eps : Double)
    (he : e.toDouble? = some eps) (tail : List Token) :
    run (inputStream n n 1 us cs (e :: tail)) = Except.ok ("OK\n", 0) ∨
      run (inputStream n n 1 us cs (e :: tail)) = Except.ok ("WA\n", 0) := by
  by_cases hall : ∀ i (hu : i < usr.length) (hc : i < corr.length),
      same eps usr[i] corr[i] = true
  · exact Or.inl (run_all_same hwf e eps he tail hall)
  · push_neg at hall
    obtain ⟨i, hu, hc, hi⟩ := hall
    exact Or.inr (run_some_differ hwf e eps he tail i hu hc (by simpa using hi))

/-- C6: on every well-formed input the run ends with an exit status and an output,
and: the status is 0 exactly when `paramCount = 1`, and then the output is the one
line `OK` or the one line `WA`; the status is not 0 exactly when `paramCount != 1`,
and the output is empty exactly then.  (With `paramCount = 1` the input holds the
tolerance token after the two sequences.) -/
theorem exit_status_and_output (n m p : ℤ) (us cs tail : List Token)
    (usr corr : List Double) (hwf : WellFormed n m p us cs usr corr)
    (htol : p = 1 → ∃ e rest eps, tail = e :: rest ∧ e.toDouble? = some eps) :
    ∃ out status, run (inputStream n m p us cs tail) = Except.ok (out, status) ∧
      (status = 0 ↔ p = 1) ∧ (p = 1 → out = "OK\n" ∨ out = "WA\n") ∧
      (status ≠ 0 ↔ p ≠ 1) ∧ (out = "" ↔ p ≠ 1) := by
  by_cases hp : p = 1
  · subst hp
    obtain ⟨e, rest, eps, rfl, he⟩ := htol rfl
    have hrun : run (inputStream n m 1 us cs (e :: rest)) = Except.ok ("OK\n", 0) ∨
        run (inputStream n m 1 us cs (e :: rest)) = Except.ok ("WA\n", 0) := by
      by_cases hnm : n = m
      · subst hnm
        exact run_equal_lengths hwf e eps he rest
      · exact Or.inr (run_length_mismatch hwf e eps he rest hnm)
    rcases hrun with h | h
    · exact ⟨"OK\n", 0, h, by simp, by simp, by simp, by decide⟩
    · exact ⟨"WA\n", 0, h, by simp, by simp, by simp, by decide⟩
  · exact ⟨"", 1, run_paramCount_ne_one hwf hp tail, by simp [hp], by simp [hp],
      by simp [hp], by simp [hp]⟩

/-- C6 at the input `2 2 1  1.0 2.0  1.0 2.0  0.001`. -/
theorem exit_status_and_output_witness :
    ∃ out status, run (inputStream 2 2 1 [Token.real 1, Token.real 2]
        [Token.real 1, Token.real 2] [Token.real (1 / 1000)]) = Except.ok (out, status) ∧
      (status = 0 ↔ (1 : ℤ) = 1) ∧ ((1 : ℤ) = 1 → out = "OK\n" ∨ out = "WA\n") ∧
      (status ≠ 0 ↔ (1 : ℤ) ≠ 1) ∧ (out = "" ↔ (1 : ℤ) ≠ 1) :=
  exit_status_and_output 2 2 1 [Token.real 1, Token.real 2] [Token.real 1, Token.real 2]
    [Token.real (1 / 1000)] [Double.fin 1, Double.fin 2] [Double.fin 1, Double.fin 2]
    { usrCount_int := by unfold IsInt32; norm_num
      corrCount_int := by unfold IsInt32; norm_num
      paramCount_int := by unfold IsInt32; norm_num
      usr_parses := by
        simp [Parses, toDouble?_real _ _ rnd_one, toDouble?_real _ _ rnd_two]
      corr_parses := by
        simp [Parses, toDouble?_real _ _ rnd_one, toDouble?_real _ _ rnd_two]
      usr_length := rfl
      corr_length := rfl }
    (fun _ => ⟨Token.real (1 / 1000), [], _, rfl, toDouble?_real _ _ rnd_thousandth⟩)

/-- C7: with `paramCount = 1` and both sequences empty (`usrCount = corrCount = 0`)
the program prints `OK`, for every tolerance read, so for every `eps >= 0`. -/
theorem empty_sequences_print_OK (e : Token) (eps : Double) (tail : List Token)
    (he : e.toDouble? = some eps) :
    run (inputStream 0 0 1 [] [] (e :: tail)) = Except.ok ("OK\n", 0) :=
  @run_all_same 0 [] [] [] []
    { usrCount_int := by unfold IsInt32; norm_num
      corrCount_int := by unfold IsInt32; norm_num
      paramCount_int := by unfold IsInt32; norm_num
      usr_parses := rfl
      corr_parses := rfl
      usr_length := rfl
      corr_length := rfl }
    e eps he tail (fun i hu _ => absurd hu (Nat.not_lt_zero i))

/-- C7 at `eps = 0.001`. -/
theorem empty_sequences_print_OK_witness :
    run (inputStream 0 0 1 [] [] [Token.real (1 / 1000)]) = Except.ok ("OK\n", 0) :=
  empty_sequences_print_OK (Token.real (1 / 1000)) _ []
    (toDouble?_real _ _ rnd_thousandth)

/-! ## Binary64 values lie on the grid of step `2 ^ (-1074)` -/

/-- The value is an integer multiple of `2 ^ (-1074)`, the smallest positive
binary64 value. -/
def OnGrid (v : ℚ) : Prop :=
  ∃ k : ℤ, v = k * 2 ^ (-1074 : ℤ)

theorem rnd_onGrid (x v : ℚ) (h : rnd x = Double.fin v) : OnGrid v := by
  unfold rnd at h
  simp only at h
  split_ifs at h
  have hv := Double.fin.inj h
  have he : -1022 ≤ max (Int.log 2 |x|) (-1022) := le_max_right _ _
  generalize max (Int.log 2 |x|) (-1022) = e at hv he
  refine ⟨roundHalfEven (x / 2 ^ (e - 52)) * 2 ^ (e - 52 + 1074).toNat, ?_⟩
  rw [← hv]
  push_cast
  rw [mul_assoc, ← zpow_natCast, ← zpow_add₀ (two_ne_zero), Int.toNat_of_nonneg (by omega)]
  congr 2
  ring

theorem toDouble?_onGrid (t : Token) (d : Double) (h : t.toDouble? = some d) :
    ∃ v, d = Double.fin v ∧ OnGrid v := by
  unfold Token.toDouble? at h
  split at h
  · rename_i v hv
    exact ⟨v, (Option.some.inj h).symm, rnd_onGrid _ _ hv⟩
  · exact absurd h (by simp)

theorem Parses.getElem {ts : List Token} {ds : List Double} (h : Parses ts ds)
    (i : ℕ) (hi : i < ds.length) : ∃ t : Token, t.toDouble? = some ds[i] := by
  have hlen := h.length_eq
  have hi' : i < ts.length := by omega
  refine ⟨ts[i], ?_⟩
  have := congrArg (fun l => l[i]?) h
  simpa [List.getElem?_map, List.getElem?_eq_getElem hi, List.getElem?_eq_getElem hi']
    using this

/-- A nonzero value on the grid does not round to zero: binary64 subtraction of two
different values never gives zero. -/
theorem eq_zero_of_rnd_eq_zero (x : ℚ) (hx : OnGrid x) (h : rnd x = Double.fin 0) :
    x = 0 := by
  by_contra hne
  obtain ⟨k, hk⟩ := hx
  have hg : (0 : ℚ) < 2 ^ (-1074 : ℤ) := by positivity
  have hk0 : k ≠ 0 := by
    rintro rfl
    simp at hk
    exact hne hk
  have hk1 : (1 : ℚ) ≤ |(k : ℚ)| := by
    have : (1 : ℤ) ≤ |k| := Int.one_le_abs hk0
    exact_mod_cast this
  have hxlo : (2 : ℚ) ^ (-1074 : ℤ) ≤ |x| := by
    rw [hk, abs_mul, abs_of_pos hg]
    nlinarith
  have hxpos : 0 < |x| := lt_of_lt_of_le hg hxlo
  have hlog : (2 : ℚ) ^ Int.log 2 |x| ≤ |x| := by
    simpa using Int.zpow_log_le_self (b := 2) (by norm_num) hxpos
  unfold rnd at h
  simp only at h
  split_ifs at h
  have hv := Double.fin.inj h
  have hmax : Int.log 2 |x| ≤ max (Int.log 2 |x|) (-1022) ∧
      -1022 ≤ max (Int.log 2 |x|) (-1022) ∧
      (max (Int.log 2 |x|) (-1022) = Int.log 2 |x| ∨
        max (Int.log 2 |x|) (-1022) = -1022) :=
    ⟨le_max_left _ _, le_max_right _ _, by
      rcases le_total (Int.log 2 |x|) (-1022) with h1 | h1
      · exact Or.inr (max_eq_right h1)
      · exact Or.inl (max_eq_left h1)⟩
  generalize max (Int.log 2 |x|) (-1022) = e at hv hmax
  have hulp : (0 : ℚ) < 2 ^ (e - 52) := by positivity
  have hR : roundHalfEven (x / 2 ^ (e - 52)) = 0 := by
    rcases mul_eq_zero.mp hv with h0 | h0
    · exact_mod_cast h0
    · exact absurd h0 hulp.ne'
  have hclose := abs_sub_roundHalfEven_le (x / 2 ^ (e - 52))
  rw [hR, Int.cast_zero, sub_zero, abs_div, abs_of_pos hulp, div_le_iff₀ hulp] at hclose
  -- `|x| ≤ 2 ^ (e - 52) / 2`, yet `|x|` is at least `2 ^ e` or at least `2 ^ (-1074)`
  rcases hmax.2.2 with he | he
  · have h1 : (2 : ℚ) ^ (e - 52) ≤ 2 ^ e := zpow_le_zpow_right₀ (by norm_num) (by omega)
    rw [← he] at hlog
    linarith
  · rw [he] at hclose
    norm_num at hclose hxlo
    linarith

theorem same_zero_iff (a b : ℚ) (ha : OnGrid a) (hb : OnGrid b) :
    same (Double.fin 0) (Double.fin a) (Double.fin b) = true ↔ a = b := by
  constructor
  · intro h
    have hgrid : OnGrid (a - b) := by
      obtain ⟨k, hk⟩ := ha
      obtain ⟨l, hl⟩ := hb
      exact ⟨k - l, by rw [hk, hl]; push_cast; ring⟩
    simp only [same, fsub] at h
    cases hr : rnd (a - b) with
    | nan => rw [hr] at h; simp [fabs, fle] at h
    | inf s => rw [hr] at h; simp [fabs, fle] at h
    | fin y =>
      rw [hr] at h
      simp only [fabs, fle, decide_eq_true_eq] at h
      have hy : y = 0 := abs_eq_zero.mp (le_antisymm h (abs_nonneg y))
      rw [hy] at hr
      have := eq_zero_of_rnd_eq_zero (a - b) hgrid hr
      linarith
  · rintro rfl
    simp [same, fsub, rnd_zero, fabs, fle]

/-- With tolerance zero, two values read from the input pass `same` exactly when
they are equal. -/
theorem same_zero_iff_of_read (ta tb : Token) (a b : Double)
    (ha : ta.toDouble? = some a) (hb : tb.toDouble? = some b) :
    same (Double.fin 0) a b = true ↔ a = b := by
  obtain ⟨va, rfl, hva⟩ := toDouble?_onGrid ta a ha
  obtain ⟨vb, rfl, hvb⟩ := toDouble?_onGrid tb b hb
  rw [same_zero_iff va vb hva hvb]
  constructor
  · rintro rfl; rfl
  · intro h; exact Double.fin.inj h

theorem run_zero_tolerance_iff {n : ℤ} {us cs : List Token} {usr corr : List Double}
    (hwf : WellFormed n n 1 us cs usr corr) (e : Token)
    (he : e.toDouble? = some (Double.fin 0)) (tail : List Token) :
    run (inputStream n n 1 us cs (e :: tail)) = Except.ok ("OK\n", 0) ↔ usr = corr := by
  have hlen : usr.length = corr.length := hwf.usr_length.trans hwf.corr_length.symm
  have hiff : ∀ i (hu : i < usr.length) (hc : i < corr.length),
      same (Double.fin 0) usr[i] corr[i] = true ↔ usr[i] = corr[i] := by
    intro i hu hc
    obtain ⟨ta, hta⟩ := hwf.usr_parses.getElem i hu
    obtain ⟨tb, htb⟩ := hwf.corr_parses.getElem i hc
    exact same_zero_iff_of_read ta tb _ _ hta htb
  constructor
  · intro hok
    by_contra hne
    have hex : ∃ i, ∃ (hu : i < usr.length) (hc : i < corr.length),
        usr[i] ≠ corr[i] := by
      by_contra hno
      push_neg at hno
      exact hne (List.ext_getElem hlen (fun i hu hc => hno i hu hc))
    obtain ⟨i, hu, hc, hi⟩ := hex
    have hfalse : same (Double.fin 0) usr[i] corr[i] = false := by
      rw [← Bool.not_eq_true, hiff i hu hc]
      exact hi
    rw [run_some_differ hwf e _ he tail i hu hc hfalse] at hok
    simp at hok
  · intro heq
    exact run_all_same hwf e _ he tail
      (fun i hu hc => (hiff i hu hc).mpr (by simp [heq]))

/-- C8: the comparison goes position by position.  With `paramCount = 1`, tolerance
zero and equal lengths the program prints `OK` exactly when the candidate sequence
equals the reference sequence at every index, and prints `WA` otherwise; so for two
different values `a` and `b`, candidate `[a, b]` against reference `[b, a]` gets
`WA` although one sequence is a permutation of the other. -/
theorem comparison_is_positional :
    (∀ (n : ℤ) (us cs : List Token) (e : Token) (tail : List Token)
      (usr corr : List Double),
      WellFormed n n 1 us cs usr corr → e.toDouble? = some (Double.fin 0) →
      (run (inputStream n n 1 us cs (e :: tail)) = Except.ok ("OK\n", 0) ↔ usr = corr) ∧
      (run (inputStream n n 1 us cs (e :: tail)) = Except.ok ("WA\n", 0) ↔ usr ≠ corr)) ∧
    (∀ (ta tb e : Token) (tail : List Token) (a b : Double),
      ta.toDouble? = some a → tb.toDouble? = some b →
      e.toDouble? = some (Double.fin 0) → a ≠ b →
      run (inputStream 2 2 1 [ta, tb] [tb, ta] (e :: tail)) = Except.ok ("WA\n", 0)) := by
  have key : ∀ (n : ℤ) (us cs : List Token) (e : Token) (tail : List Token)
      (usr corr : List Double),
      WellFormed n n 1 us cs usr corr → e.toDouble? = some (Double.fin 0) →
      (run (inputStream n n 1 us cs (e :: tail)) = Except.ok ("OK\n", 0) ↔ usr = corr) ∧
      (run (inputStream n n 1 us cs (e :: tail)) = Except.ok ("WA\n", 0) ↔
        usr ≠ corr) := by
    intro n us cs e tail usr corr hwf he
    have hiff := run_zero_tolerance_iff hwf e he tail
    refine ⟨hiff, ?_⟩
    rcases run_equal_lengths hwf e _ he tail with h | h
    · rw [h]
      simpa using hiff.mp h
    · rw [h]
      simp only [true_iff]
      intro heq
      rw [hiff.mpr heq] at h
      simp at h
  refine ⟨key, ?_⟩
  intro ta tb e tail a b ha hb he hab
  have hwf : WellFormed 2 2 1 [ta, tb] [tb, ta] [a, b] [b, a] :=
    { usrCount_int := by unfold IsInt32; norm_num
      corrCount_int := by unfold IsInt32; norm_num
      paramCount_int := by unfold IsInt32; norm_num
      usr_parses := by simp [Parses, ha, hb]
      corr_parses := by simp [Parses, ha, hb]
      usr_length := rfl
      corr_length := rfl }
  refine ((key 2 [ta, tb] [tb, ta] e tail [a, b] [b, a] hwf he).2).mpr ?_
  intro h
  simp only [List.cons.injEq, and_true] at h
  exact hab h.1

/-- C8 at candidate `[1.0, 5.0]`, reference `[5.0, 1.0]`, `eps = 0`. -/
theorem comparison_is_positional_witness :
    run (inputStream 2 2 1 [Token.real 1, Token.real 5] [Token.real 5, Token.real 1]
      [Token.real 0]) = Except.ok ("WA\n", 0) :=
  comparison_is_positional.2 (Token.real 1) (Token.real 5) (Token.real 0) []
    (Double.fin 1) (Double.fin 5) (toDouble?_real _ _ rnd_one)
    (toDouble?_real _ _ rnd_five) (toDouble?_real _ _ rnd_zero)
    (by
      intro h
      have := Double.fin.inj h
      norm_num at this)

/-- C9: the input is read in the order counts, candidate, reference, tolerance.  On
a well-formed input with counts `n, m >= 0`: with `paramCount != 1` the run ends
with status 1 having read the `n` candidate tokens into `usr` and the next `m`
tokens into `corr`, in order, and nothing after them (what follows the sequences is
left unread and `eps` keeps its initial value); with `paramCount = 1` it also reads
the next token into `eps` and nothing more, and its verdict is the comparison of
`usr` against `corr` under `eps`: `OK` when the lengths agree and every pair passes
`same`, `WA` otherwise. -/
theorem input_is_read_in_order (n m p : ℤ) (us cs tail : List Token)
    (usr corr : List Double) (hn : 0 ≤ n) (hm : 0 ≤ m)
    (hwf : WellFormed n m p us cs usr corr) :
    (p ≠ 1 → main (State.init (inputStream n m p us cs tail)) =
      Except.ok (1, State.mk tail "" n m p usr corr (Double.fin 0))) ∧
    (p = 1 → ∀ (e : Token) (rest : List Token) (eps : Double),
      tail = e :: rest → e.toDouble? = some eps →
      ∃ out, main (State.init (inputStream n m p us cs tail)) =
          Except.ok (0, State.mk rest out n m p usr corr eps) ∧
        (out = "OK\n" ↔ (usr.length = corr.length ∧
          ∀ i (hu : i < usr.length) (hc : i < corr.length),
            same eps usr[i] corr[i] = true)) ∧
        (out = "WA\n" ↔ ¬ (usr.length = corr.length ∧
          ∀ i (hu : i < usr.length) (hc : i < corr.length),
            same eps usr[i] corr[i] = true))) := by
  refine ⟨fun hp => main_paramCount_ne_one hwf hp tail, ?_⟩
  rintro rfl e rest eps rfl he
  rw [main_paramCount_one hwf e eps he rest]
  have hlen : usr.length = corr.length ↔ n = m := by
    rw [hwf.usr_length, hwf.corr_length]
    omega
  by_cases hnm : n = m
  · subst hnm
    rw [if_neg (not_not.mpr rfl)]
    by_cases hall : ∀ i (hu : i < usr.length) (hc : i < corr.length),
        same eps usr[i] corr[i] = true
    · refine ⟨"OK\n", ?_, ?_, ?_⟩
      · rw [compareLoop_all n.toNat 0 _ (by simpa using hwf.usr_length.symm)
          (by simpa using hlen.mpr rfl) (fun j hu hc _ => hall j hu hc)]
        rfl
      · simp only [true_iff]
        exact ⟨hlen.mpr rfl, hall⟩
      · have hne : ("OK\n" : String) ≠ "WA\n" := by decide
        simp only [hne, false_iff, not_not]
        exact ⟨hlen.mpr rfl, hall⟩
    · refine ⟨"WA\n", ?_, ?_, ?_⟩
      · have hall' := hall
        push_neg at hall'
        obtain ⟨i, hu, hc, hi⟩ := hall'
        rw [compareLoop_some n.toNat 0 _ (by simpa using hwf.usr_length.symm)
          (by simpa using hlen.mpr rfl) ⟨i, hu, hc, Nat.zero_le i, by simpa using hi⟩]
        rfl
      · have hne : ("WA\n" : String) ≠ "OK\n" := by decide
        simp only [hne, false_iff]
        exact fun h => hall h.2
      · simp only [true_iff]
        exact fun h => hall h.2
  · rw [if_pos hnm]
    refine ⟨"WA\n", rfl, ?_, ?_⟩
    · have hne : ("WA\n" : String) ≠ "OK\n" := by decide
      simp only [hne, false_iff]
      exact fun h => hnm (hlen.mp h.1)
    · simp only [true_iff]
      exact fun h => hnm (hlen.mp h.1)

/-- C9 at the inputs `1 2 2  1.0  1.0 2.0  0.05 0.05` (with `paramCount = 2` the two
tokens after the sequences are left unread) and `2 2 1  1.0 2.0  1.0 2.0  0.001`
(the last token is read into `eps`). -/
theorem input_is_read_in_order_witness :
    main (State.init (inputStream 1 2 2 [Token.real 1] [Token.real 1, Token.real 2]
      [Token.real (1 / 20), Token.real (1 / 20)])) =
      Except.ok (1, State.mk [Token.real (1 / 20), Token.real (1 / 20)] "" 1 2 2
        [Double.fin 1] [Double.fin 1, Double.fin 2] (Double.fin 0)) ∧
    ∃ out, main (State.init (inputStream 2 2 1 [Token.real 1, Token.real 2]
        [Token.real 1, Token.real 2] [Token.real (1 / 1000)])) =
        Except.ok (0, State.mk [] out 2 2 1 [Double.fin 1, Double.fin 2]
          [Double.fin 1, Double.fin 2] (Double.fin (1152921504606847 / 2 ^ 60))) ∧
      (out = "OK\n" ↔ ([Double.fin 1, Double.fin 2].length
          = [Double.fin 1, Double.fin 2].length ∧
        ∀ i (hu : i < [Double.fin 1, Double.fin 2].length)
          (hc : i < [Double.fin 1, Double.fin 2].length),
          same (Double.fin (1152921504606847 / 2 ^ 60)) [Double.fin 1, Double.fin 2][i]
            [Double.fin 1, Double.fin 2][i] = true)) ∧
      (out = "WA\n" ↔ ¬ ([Double.fin 1, Double.fin 2].length
          = [Double.fin 1, Double.fin 2].length ∧
        ∀ i (hu : i < [Double.fin 1, Double.fin 2].length)
          (hc : i < [Double.fin 1, Double.fin 2].length),
          same (Double.fin (1152921504606847 / 2 ^ 60)) [Double.fin 1, Double.fin 2][i]
            [Double.fin 1, Double.fin 2][i] = true)) :=
  ⟨(input_is_read_in_order 1 2 2 [Token.real 1] [Token.real 1, Token.real 2]
    [Token.real (1 / 20), Token.real (1 / 20)] [Double.fin 1] [Double.fin 1, Double.fin 2]
    (by decide) (by decide)
    { usrCount_int := by unfold IsInt32; norm_num
      corrCount_int := by unfold IsInt32; norm_num
      paramCount_int := by unfold IsInt32; norm_num
      usr_parses := by simp [Parses, toDouble?_real _ _ rnd_one]
      corr_parses := by
        simp [Parses, toDouble?_real _ _ rnd_one, toDouble?_real _ _ rnd_two]
      usr_length := rfl
      corr_length := rfl }).1 (by decide),
   (input_is_read_in_order 2 2 1 [Token.real 1, Token.real 2] [Token.real 1, Token.real 2]
    [Token.real (1 / 1000)] [Double.fin 1, Double.fin 2] [Double.fin 1, Double.fin 2]
    (by decide) (by decide)
    { usrCount_int := by unfold IsInt32; norm_num
      corrCount_int := by unfold IsInt32; norm_num
      paramCount_int := by unfold IsInt32; norm_num
      usr_parses := by
        simp [Parses, toDouble?_real _ _ rnd_one, toDouble?_real _ _ rnd_two]
      corr_parses := by
        simp [Parses, toDouble?_real _ _ rnd_one, toDouble?_real _ _ rnd_two]
      usr_length := rfl
      corr_length := rfl }).2 rfl (Token.real (1 / 1000)) [] _ rfl
      (toDouble?_real _ _ rnd_thousandth)⟩

/-! ## The globals a run starts with -/

theorem readUsr_eps (k : ℕ) : ∀ (s : State) (e : Double),
    readUsr k { s with eps := e } =
      match readUsr k s with
      | Except.error f => Except.error f
      | Except.ok t => Except.ok { t with eps := e } := by
  induction k with
  | zero => intro s e; rfl
  | succ k ih =>
    intro s e
    simp only [readUsr]
    cases readDouble s.cin with
    | error f => rfl
    | ok r =>
      obtain ⟨cur, rest⟩ := r
      exact ih { s with cin := rest, usr := s.usr ++ [cur] } e

theorem readCorr_eps (k : ℕ) : ∀ (s : State) (e : Double),
    readCorr k { s with eps := e } =
      match readCorr k s with
      | Except.error f => Except.error f
      | Except.ok t => Except.ok { t with eps := e } := by
  induction k with
  | zero => intro s e; rfl
  | succ k ih =>
    intro s e
    simp only [readCorr]
    cases readDouble s.cin with
    | error f => rfl
    | ok r =>
      obtain ⟨cur, rest⟩ := r
      exact ih { s with cin := rest, corr := s.corr ++ [cur] } e

/-- What `main` shows does not depend on the values the three counts and `eps` hold
at the start. -/
theorem observe_main_counts_eps (s : State) (a b p : ℤ) (e : Double) :
    observe (main { s with usrCount := a, corrCount := b, paramCount := p, eps := e }) =
      observe (main s) := by
  unfold main readCounts
  simp only
  cases readInt s.cin with
  | error f => rfl
  | ok r1 =>
    simp only
    cases readInt r1.2 with
    | error f => rfl
    | ok r2 =>
      simp only
      cases readInt r2.2 with
      | error f => rfl
      | ok r3 =>
        simp only
        have h1 := readUsr_eps r1.1.toNat
          { s with cin := r3.2, usrCount := r1.1, corrCount := r2.1, paramCount := r3.1 } e
        simp only at h1
        rw [h1]
        cases readUsr r1.1.toNat
          { s with cin := r3.2, usrCount := r1.1, corrCount := r2.1,
                   paramCount := r3.1 } with
        | error f => rfl
        | ok s2 =>
          simp only
          have h2 := readCorr_eps s2.corrCount.toNat s2 e
          rw [h2]
          cases readCorr s2.corrCount.toNat s2 with
          | error f => rfl
          | ok s3 =>
            simp only [readEps]
            split_ifs
            · rfl
            · rfl

/-- C10: the checker is deterministic.  The output text and the exit status of a run
are a function of the input: two runs on identical input show the same output and
status.  No value of the scalar globals left in the state has any influence: a run
started with other values than zero in `usrCount`, `corrCount`, `paramCount` and
`eps` shows the same as well (they are overwritten before they are read). -/
theorem result_is_function_of_input (input₁ input₂ : List Token) (h : input₁ = input₂)
    (a b p : ℤ) (e : Double) :
    run input₁ = run input₂ ∧
      observe (main { State.init input₁ with
        usrCount := a, corrCount := b, paramCount := p, eps := e }) = run input₂ := by
  subst h
  exact ⟨rfl, observe_main_counts_eps (State.init input₁) a b p e⟩

/-- C10 at the input `1 1 1  1.5  1.0  0.5`, the second run started with the values
`7, 8, 9` in the counts and `1.0` in `eps`. -/
theorem result_is_function_of_input_witness :
    run (inputStream 1 1 1 [Token.real (3 / 2)] [Token.real 1] [Token.real (1 / 2)]) =
        run (inputStream 1 1 1 [Token.real (3 / 2)] [Token.real 1] [Token.real (1 / 2)]) ∧
      observe (main { State.init
          (inputStream 1 1 1 [Token.real (3 / 2)] [Token.real 1] [Token.real (1 / 2)]) with
        usrCount := 7, corrCount := 8, paramCount := 9, eps := Double.fin 1 }) =
        run (inputStream 1 1 1 [Token.real (3 / 2)] [Token.real 1] [Token.real (1 / 2)]) :=
  result_is_function_of_input _ _ rfl 7 8 9 (Double.fin 1)

/-! ## The scan of all indices -/

/-- The scan the specification compares the loop of `main` with: it examines every
index of the two sequences and answers `WA` exactly when some index does not pass
`same`, `OK` otherwise. -/
def fullScanVerdict (eps : Double) (usr corr : List Double) : String :=
  if (usr.zip corr).any (fun pair => !same eps pair.1 pair.2) then "WA\n" else "OK\n"

theorem zip_any_mismatch_iff (eps : Double) (usr corr : List Double) :
    (usr.zip corr).any (fun pair => !same eps pair.1 pair.2) = true ↔
      ∃ j, ∃ (hu : j < usr.length) (hc : j < corr.length),
        same eps usr[j] corr[j] = false := by
  rw [List.any_eq_true]
  constructor
  · rintro ⟨pair, hmem, hpair⟩
    obtain ⟨j, hj, rfl⟩ := List.getElem_of_mem hmem
    have hj' := hj
    rw [List.length_zip] at hj'
    refine ⟨j, by omega, by omega, ?_⟩
    simpa [List.getElem_zip] using hpair
  · rintro ⟨j, hu, hc, hj⟩
    have hjz : j < (usr.zip corr).length := by
      rw [List.length_zip]
      omega
    refine ⟨(usr.zip corr)[j], List.getElem_mem _, ?_⟩
    simp [List.getElem_zip, hj]

/-- C11: the loop of `main`, which returns `WA` at the first index in increasing
order that does not pass `same`, gives for every pair of equal-length sequences and
every `eps` the verdict of the scan of all indices (`WA` exactly when some index
mismatches), with exit status 0. -/
theorem early_exit_equals_full_scan (s : State) (hlen : s.usr.length = s.corr.length) :
    compareLoop s.usr.length 0 s =
      Except.ok (0, s.print (fullScanVerdict s.eps s.usr s.corr)) := by
  unfold fullScanVerdict
  by_cases hex : ∃ j, ∃ (hu : j < s.usr.length) (hc : j < s.corr.length),
      same s.eps s.usr[j] s.corr[j] = false
  · rw [if_pos ((zip_any_mismatch_iff _ _ _).mpr hex)]
    obtain ⟨j, hu, hc, hj⟩ := hex
    exact compareLoop_some _ 0 s (by omega) hlen ⟨j, hu, hc, Nat.zero_le j, hj⟩
  · rw [if_neg (fun h => hex ((zip_any_mismatch_iff _ _ _).mp h))]
    refine compareLoop_all _ 0 s (by omega) hlen (fun j hu hc _ => ?_)
    by_contra hne
    exact hex ⟨j, hu, hc, by simpa using hne⟩

/-- C11 at candidate `[2.0, 2.0]`, reference `[1.0, 2.0]`, `eps = 0.5`: the loop
stops at index 0 with `WA`, the verdict of the scan of both indices. -/
theorem early_exit_equals_full_scan_witness :
    fullScanVerdict (Double.fin (1 / 2)) [Double.fin 2, Double.fin 2]
        [Double.fin 1, Double.fin 2] = "WA\n" ∧
    compareLoop 2 0 (State.mk [] "" 2 2 1 [Double.fin 2, Double.fin 2]
        [Double.fin 1, Double.fin 2] (Double.fin (1 / 2))) =
      Except.ok (0, (State.mk [] "" 2 2 1 [Double.fin 2, Double.fin 2]
        [Double.fin 1, Double.fin 2] (Double.fin (1 / 2))).print
          (fullScanVerdict (Double.fin (1 / 2)) [Double.fin 2, Double.fin 2]
            [Double.fin 1, Double.fin 2])) := by
  refine ⟨?_, early_exit_equals_full_scan (State.mk [] "" 2 2 1
    [Double.fin 2, Double.fin 2] [Double.fin 1, Double.fin 2] (Double.fin (1 / 2))) rfl⟩
  have hsub : rnd (2 - 1) = Double.fin 1 := by
    rw [show (2 - 1 : ℚ) = 1 by norm_num]
    exact rnd_one
  have hmis : same (Double.fin (1 / 2)) (Double.fin 2) (Double.fin 1) = false := by
    simp only [same, fsub, hsub, fabs, fle]
    norm_num
  unfold fullScanVerdict
  rw [if_pos]
  rw [zip_any_mismatch_iff]
  exact ⟨0, by simp, by simp, hmis⟩

/-! ## The lengths of the two vectors -/

theorem readCounts_vectors (s t : State) (h : readCounts s = Except.ok t) :
    t.usr = s.usr ∧ t.corr = s.corr := by
  unfold readCounts at h
  cases h1 : readInt s.cin with
  | error f => rw [h1] at h; exact absurd h (by simp)
  | ok r1 =>
    rw [h1] at h
    simp only at h
    cases h2 : readInt r1.2 with
    | error f => rw [h2] at h; exact absurd h (by simp)
    | ok r2 =>
      rw [h2] at h
      simp only at h
      cases h3 : readInt r2.2 with
      | error f => rw [h3] at h; exact absurd h (by simp)
      | ok r3 =>
        rw [h3] at h
        simp only at h
        have ht := Except.ok.inj h
        subst ht
        exact ⟨rfl, rfl⟩

theorem readUsr_fields (k : ℕ) : ∀ (s t : State), readUsr k s = Except.ok t →
    t.usr.length = s.usr.length + k ∧ t.corr = s.corr ∧ t.usrCount = s.usrCount ∧
      t.corrCount = s.corrCount ∧ t.paramCount = s.paramCount := by
  induction k with
  | zero =>
    intro s t h
    have ht : s = t := Except.ok.inj h
    subst ht
    simp
  | succ k ih =>
    intro s t h
    simp only [readUsr] at h
    cases hr : readDouble s.cin with
    | error f => rw [hr] at h; exact absurd h (by simp)
    | ok r =>
      obtain ⟨cur, rest⟩ := r
      rw [hr] at h
      have := ih { s with cin := rest, usr := s.usr ++ [cur] } t h
      simp only [List.length_append, List.length_singleton] at this
      refine ⟨by omega, this.2.1, this.2.2.1, this.2.2.2.1, this.2.2.2.2⟩

theorem readCorr_fields (k : ℕ) : ∀ (s t : State), readCorr k s = Except.ok t →
    t.corr.length = s.corr.length + k ∧ t.usr = s.usr ∧ t.usrCount = s.usrCount ∧
      t.corrCount = s.corrCount ∧ t.paramCount = s.paramCount := by
  induction k with
  | zero =>
    intro s t h
    have ht : s = t := Except.ok.inj h
    subst ht
    simp
  | succ k ih =>
    intro s t h
    simp only [readCorr] at h
    cases hr : readDouble s.cin with
    | error f => rw [hr] at h; exact absurd h (by simp)
    | ok r =>
      obtain ⟨cur, rest⟩ := r
      rw [hr] at h
      have := ih { s with cin := rest, corr := s.corr ++ [cur] } t h
      simp only [List.length_append, List.length_singleton] at this
      refine ⟨by omega, this.2.1, this.2.2.1, this.2.2.2.1, this.2.2.2.2⟩

theorem readEps_fields (s t : State) (h : readEps s = Except.ok t) :
    t.usr = s.usr ∧ t.corr = s.corr ∧ t.usrCount = s.usrCount ∧
      t.corrCount = s.corrCount := by
  unfold readEps at h
  cases hr : readDouble s.cin with
  | error f => rw [hr] at h; exact absurd h (by simp)
  | ok r =>
    rw [hr] at h
    have ht := Except.ok.inj h
    subst ht
    exact ⟨rfl, rfl, rfl, rfl⟩

/-- The comparison loop never leaves a vector while its indices stay below both
lengths. -/
theorem compareLoop_inBounds (k : ℕ) : ∀ (i : ℕ) (s : State),
    i + k ≤ s.usr.length → i + k ≤ s.corr.length →
      compareLoop k i s ≠ Except.error Fault.outOfBounds := by
  induction k with
  | zero => intro i s _ _; simp [compareLoop]
  | succ k ih =>
    intro i s hu hc
    have hu' : i < s.usr.length := by omega
    have hc' : i < s.corr.length := by omega
    simp only [compareLoop, List.getElem?_eq_getElem hu', List.getElem?_eq_getElem hc']
    split_ifs
    · simp
    · exact ih (i + 1) s (by omega) (by omega)

/-- The lengths of `usr` and `corr` once the two read loops are done, from the
start state of the program. -/
theorem lengths_after_reads (input : List Token) (s1 s2 s3 : State)
    (h1 : readCounts (State.init input) = Except.ok s1)
    (h2 : readUsr s1.usrCount.toNat s1 = Except.ok s2)
    (h3 : readCorr s2.corrCount.toNat s2 = Except.ok s3) :
    s3.usr.length = s3.usrCount.toNat ∧ s3.corr.length = s3.corrCount.toNat := by
  have f1 := readCounts_vectors _ _ h1
  have f2 := readUsr_fields _ _ _ h2
  have f3 := readCorr_fields _ _ _ h3
  have e1 : s1.usr = [] := f1.1
  have e2 : s1.corr = [] := f1.2
  constructor
  · rw [f3.2.1, f2.1, e1, f3.2.2.1, f2.2.2.1]
    simp
  · rw [f3.1, f2.2.1, e2, f3.2.2.2.1]
    simp

/-! ## A failed extraction is the only fault of the read stages -/

theorem readInt_fault (l : List Token) (f : Fault) (h : readInt l = Except.error f) :
    f = Fault.extraction := by
  unfold readInt at h
  split at h
  · split_ifs at h
    exact (Except.error.inj h).symm
  · exact (Except.error.inj h).symm

theorem readDouble_fault (l : List Token) (f : Fault)
    (h : readDouble l = Except.error f) : f = Fault.extraction := by
  cases l with
  | nil => exact (Except.error.inj h).symm
  | cons t rest =>
    have unfolded : readDouble (t :: rest) =
        match t.toDouble? with
        | some d => Except.ok (d, rest)
        | none => Except.error Fault.extraction := rfl
    rw [unfolded] at h
    cases ht : t.toDouble? with
    | none => rw [ht] at h; exact (Except.error.inj h).symm
    | some d => rw [ht] at h; exact absurd h (by simp)

theorem readCounts_fault (s : State) (f : Fault) (h : readCounts s = Except.error f) :
    f = Fault.extraction := by
  unfold readCounts at h
  cases h1 : readInt s.cin with
  | error g => rw [h1] at h; rw [← Except.error.inj h]; exact readInt_fault _ _ h1
  | ok r1 =>
    rw [h1] at h
    simp only at h
    cases h2 : readInt r1.2 with
    | error g => rw [h2] at h; rw [← Except.error.inj h]; exact readInt_fault _ _ h2
    | ok r2 =>
      rw [h2] at h
      simp only at h
      cases h3 : readInt r2.2 with
      | error g => rw [h3] at h; rw [← Except.error.inj h]; exact readInt_fault _ _ h3
      | ok r3 => rw [h3] at h; exact absurd h (by simp)

theorem readUsr_fault (k : ℕ) : ∀ (s : State) (f : Fault),
    readUsr k s = Except.error f → f = Fault.extraction := by
  induction k with
  | zero => intro s f h; exact absurd h (by simp [readUsr])
  | succ k ih =>
    intro s f h
    simp only [readUsr] at h
    cases hr : readDouble s.cin with
    | error g => rw [hr] at h; rw [← Except.error.inj h]; exact readDouble_fault _ _ hr
    | ok r =>
      obtain ⟨cur, rest⟩ := r
      rw [hr] at h
      exact ih _ f h

theorem readCorr_fault (k : ℕ) : ∀ (s : State) (f : Fault),
    readCorr k s = Except.error f → f = Fault.extraction := by
  induction k with
  | zero => intro s f h; exact absurd h (by simp [readCorr])
  | succ k ih =>
    intro s f h
    simp only [readCorr] at h
    cases hr : readDouble s.cin with
    | error g => rw [hr] at h; rw [← Except.error.inj h]; exact readDouble_fault _ _ hr
    | ok r =>
      obtain ⟨cur, rest⟩ := r
      rw [hr] at h
      exact ih _ f h

theorem readEps_fault (s : State) (f : Fault) (h : readEps s = Except.error f) :
    f = Fault.extraction := by
  unfold readEps at h
  cases hr : readDouble s.cin with
  | error g => rw [hr] at h; rw [← Except.error.inj h]; exact readDouble_fault _ _ hr
  | ok r => rw [hr] at h; exact absurd h (by simp)

/-- From the start state, `main` never indexes a vector outside its bounds. -/
theorem main_ne_outOfBounds (input : List Token) :
    main (State.init input) ≠ Except.error Fault.outOfBounds := by
  unfold main
  cases h1 : readCounts (State.init input) with
  | error f =>
    simp only
    rw [readCounts_fault _ _ h1]
    simp
  | ok s1 =>
    simp only
    cases h2 : readUsr s1.usrCount.toNat s1 with
    | error f =>
      simp only
      rw [readUsr_fault _ _ _ h2]
      simp
    | ok s2 =>
      simp only
      cases h3 : readCorr s2.corrCount.toNat s2 with
      | error f =>
        simp only
        rw [readCorr_fault _ _ _ h3]
        simp
      | ok s3 =>
        simp only
        have hlen := lengths_after_reads input s1 s2 s3 h1 h2 h3
        split_ifs with hp
        · simp
        · cases h4 : readEps s3 with
          | error f =>
            simp only
            rw [readEps_fault _ _ h4]
            simp
          | ok s4 =>
            simp only
            have f4 := readEps_fields _ _ h4
            split_ifs with hnm
            · simp
            · have hnm' : s4.usrCount = s4.corrCount := not_not.mp hnm
              refine compareLoop_inBounds _ 0 s4 ?_ ?_
              · rw [f4.1, hlen.1, f4.2.2.1]; omega
              · rw [f4.2.1, hlen.2, hnm', f4.2.2.2]; omega

theorem compareLoop_total (s : State) (hlen : s.usr.length = s.corr.length) :
    compareLoop s.usr.length 0 s = Except.ok (0, s.print "OK\n") ∨
      compareLoop s.usr.length 0 s = Except.ok (0, s.print "WA\n") := by
  by_cases hall : ∀ j (hu : j < s.usr.length) (hc : j < s.corr.length),
      same s.eps s.usr[j] s.corr[j] = true
  · exact Or.inl (compareLoop_all _ 0 s (by omega) hlen (fun j hu hc _ => hall j hu hc))
  · push_neg at hall
    obtain ⟨j, hu, hc, hj⟩ := hall
    exact Or.inr (compareLoop_some _ 0 s (by omega) hlen
      ⟨j, hu, hc, Nat.zero_le j, by simpa using hj⟩)

/-- C12: every element access of the comparison loop is in bounds.
(1) On every input, `main` never indexes `usr` or `corr` outside its bounds.
(2) Whenever the two read loops finish, `usr` has exactly `max(usrCount, 0)`
elements and `corr` exactly `max(corrCount, 0)`; a negative count reads no value
(the loop leaves the state as it was); and with `usrCount = corrCount` every index
`i` with `0 <= i < usrCount` is an index of both vectors.
(3) On every well-formed input the two read loops do finish, with every announced
value stored: `usr` and `corr` hold the values of the candidate and the reference
tokens, `max(usrCount, 0)` and `max(corrCount, 0)` of them.
(4) On every well-formed input with `paramCount = 1` and `usrCount = corrCount = n`
the comparison loop is reached with these vectors, every index `i < n` it can read
holds an element of `usr` and an element of `corr`, and the loop runs to its end:
`main` returns status 0 with `OK` or `WA` written. -/
theorem element_accesses_in_bounds :
    (∀ input : List Token, main (State.init input) ≠ Except.error Fault.outOfBounds) ∧
    (∀ (input : List Token) (s1 s2 s3 : State),
      readCounts (State.init input) = Except.ok s1 →
      readUsr s1.usrCount.toNat s1 = Except.ok s2 →
      readCorr s2.corrCount.toNat s2 = Except.ok s3 →
      (s3.usr.length : ℤ) = max s3.usrCount 0 ∧
      (s3.corr.length : ℤ) = max s3.corrCount 0 ∧
      (s3.usrCount < 0 → s2 = s1) ∧ (s3.corrCount < 0 → s3 = s2) ∧
      (∀ s4 : State, readEps s3 = Except.ok s4 → s4.usrCount = s4.corrCount →
        ∀ i : ℕ, (i : ℤ) < s4.usrCount → i < s4.usr.length ∧ i < s4.corr.length)) ∧
    (∀ (n m p : ℤ) (us cs tail : List Token) (usr corr : List Double),
      WellFormed n m p us cs usr corr →
      ∃ s1 s2 : State,
        readCounts (State.init (inputStream n m p us cs tail)) = Except.ok s1 ∧
        readUsr s1.usrCount.toNat s1 = Except.ok s2 ∧
        readCorr s2.corrCount.toNat s2 =
          Except.ok (State.mk tail "" n m p usr corr (Double.fin 0)) ∧
        (usr.length : ℤ) = max n 0 ∧ (corr.length : ℤ) = max m 0) ∧
    (∀ (n : ℤ) (us cs : List Token) (e : Token) (tail : List Token)
      (usr corr : List Double) (eps : Double),
      WellFormed n n 1 us cs usr corr → e.toDouble? = some eps →
      main (State.init (inputStream n n 1 us cs (e :: tail))) =
          compareLoop n.toNat 0 (State.mk tail "" n n 1 usr corr eps) ∧
        (∀ i : ℕ, (i : ℤ) < n → ∃ u v, usr[i]? = some u ∧ corr[i]? = some v) ∧
        (main (State.init (inputStream n n 1 us cs (e :: tail))) =
            Except.ok (0, State.mk tail "OK\n" n n 1 usr corr eps) ∨
          main (State.init (inputStream n n 1 us cs (e :: tail))) =
            Except.ok (0, State.mk tail "WA\n" n n 1 usr corr eps))) := by
  refine ⟨main_ne_outOfBounds, ?_, ?_, ?_⟩
  · intro input s1 s2 s3 h1 h2 h3
    have hlen := lengths_after_reads input s1 s2 s3 h1 h2 h3
    have f2 := readUsr_fields _ _ _ h2
    have f3 := readCorr_fields _ _ _ h3
    refine ⟨?_, ?_, ?_, ?_, ?_⟩
    · rw [hlen.1]; omega
    · rw [hlen.2]; omega
    · intro hneg
      have hz : s1.usrCount.toNat = 0 := by
        rw [← f2.2.2.1, ← f3.2.2.1]; omega
      rw [hz] at h2
      exact (Except.ok.inj h2).symm
    · intro hneg
      have hz : s2.corrCount.toNat = 0 := by
        rw [← f3.2.2.2.1]; omega
      rw [hz] at h3
      exact (Except.ok.inj h3).symm
    · intro s4 h4 heq i hi
      have f4 := readEps_fields _ _ h4
      rw [f4.1, f4.2.1, hlen.1, hlen.2, ← f4.2.2.1, ← f4.2.2.2, ← heq]
      omega
  · intro n m p us cs tail usr corr hwf
    obtain ⟨s1, s2, h1, h2, h3⟩ := afterReads hwf tail
    refine ⟨s1, s2, h1, h2, h3, ?_, ?_⟩
    · rw [hwf.usr_length]; omega
    · rw [hwf.corr_length]; omega
  · intro n us cs e tail usr corr eps hwf he
    have hmain := main_paramCount_one hwf e eps he tail
    rw [if_neg (not_not.mpr rfl)] at hmain
    have hlen : usr.length = corr.length := hwf.usr_length.trans hwf.corr_length.symm
    refine ⟨hmain, ?_, ?_⟩
    · intro i hi
      have hu : i < usr.length := by rw [hwf.usr_length]; omega
      have hc : i < corr.length := by rw [hwf.corr_length]; omega
      exact ⟨usr[i], corr[i], List.getElem?_eq_getElem hu, List.getElem?_eq_getElem hc⟩
    · rw [hmain, ← hwf.usr_length]
      exact compareLoop_total (State.mk tail "" n n 1 usr corr eps) hlen

/-- C12 at the input `2 2 1  1.0 2.0  1.0 2.0  0.001`: the two loops store two
values each, the comparison loop reads the indices 0 and 1 of both vectors and
`main` ends with a verdict. -/
theorem element_accesses_in_bounds_witness :
    (∃ s1 s2 : State,
      readCounts (State.init (inputStream 2 2 1 [Token.real 1, Token.real 2]
        [Token.real 1, Token.real 2] [Token.real (1 / 1000)])) = Except.ok s1 ∧
      readUsr s1.usrCount.toNat s1 = Except.ok s2 ∧
      readCorr s2.corrCount.toNat s2 =
        Except.ok (State.mk [Token.real (1 / 1000)] "" 2 2 1 [Double.fin 1, Double.fin 2]
          [Double.fin 1, Double.fin 2] (Double.fin 0)) ∧
      (([Double.fin 1, Double.fin 2] : List Double).length : ℤ) = max 2 0 ∧
      (([Double.fin 1, Double.fin 2] : List Double).length : ℤ) = max 2 0) ∧
    (∀ i : ℕ, (i : ℤ) < 2 → ∃ u v, [Double.fin 1, Double.fin 2][i]? = some u ∧
      [Double.fin 1, Double.fin 2][i]? = some v) ∧
    (main (State.init (inputStream 2 2 1 [Token.real 1, Token.real 2]
        [Token.real 1, Token.real 2] [Token.real (1 / 1000)])) =
        Except.ok (0, State.mk [] "OK\n" 2 2 1 [Double.fin 1, Double.fin 2]
          [Double.fin 1, Double.fin 2] (Double.fin (1152921504606847 / 2 ^ 60))) ∨
      main (State.init (inputStream 2 2 1 [Token.real 1, Token.real 2]
        [Token.real 1, Token.real 2] [Token.real (1 / 1000)])) =
        Except.ok (0, State.mk [] "WA\n" 2 2 1 [Double.fin 1, Double.fin 2]
          [Double.fin 1, Double.fin 2] (Double.fin (1152921504606847 / 2 ^ 60)))) := by
  have hwf : WellFormed 2 2 1 [Token.real 1, Token.real 2] [Token.real 1, Token.real 2]
      [Double.fin 1, Double.fin 2] [Double.fin 1, Double.fin 2] :=
    { usrCount_int := by unfold IsInt32; norm_num
      corrCount_int := by unfold IsInt32; norm_num
      paramCount_int := by unfold IsInt32; norm_num
      usr_parses := by
        simp [Parses, toDouble?_real _ _ rnd_one, toDouble?_real _ _ rnd_two]
      corr_parses := by
        simp [Parses, toDouble?_real _ _ rnd_one, toDouble?_real _ _ rnd_two]
      usr_length := rfl
      corr_length := rfl }
  have h4 := element_accesses_in_bounds.2.2.2 2 [Token.real 1, Token.real 2]
    [Token.real 1, Token.real 2] (Token.real (1 / 1000)) [] [Double.fin 1, Double.fin 2]
    [Double.fin 1, Double.fin 2] _ hwf (toDouble?_real _ _ rnd_thousandth)
  exact ⟨element_accesses_in_bounds.2.2.1 2 2 1 [Token.real 1, Token.real 2]
    [Token.real 1, Token.real 2] [Token.real (1 / 1000)] [Double.fin 1, Double.fin 2]
    [Double.fin 1, Double.fin 2] hwf, h4.2.1, h4.2.2⟩

/-! ## Rounding is symmetric about zero -/

/-- An integer within one half of `x`, even when exactly one half away, is the
rounded value. -/
theorem roundHalfEven_unique (x : ℚ) (m : ℤ)
    (h : |x - m| < 1 / 2 ∨ (|x - m| = 1 / 2 ∧ m % 2 = 0)) : roundHalfEven x = m := by
  rcases h with h | ⟨h, hev⟩
  · exact roundHalfEven_eq_of_abs_lt x m h
  · have h1 := Int.floor_le x
    have h2 := Int.lt_floor_add_one x
    rcases abs_eq (by norm_num : (0 : ℚ) ≤ 1 / 2) |>.mp h with hx | hx
    · -- `x = m + 1/2`: the floor is `m`, a tie, and `m` is even
      have hfl : ⌊x⌋ = m := by
        rw [Int.floor_eq_iff]
        constructor <;> linarith
      unfold roundHalfEven
      rw [hfl]
      have hfrac : x - (m : ℚ) = 1 / 2 := hx
      rw [hfrac]
      simp [hev]
    · -- `x = m - 1/2`: the floor is `m - 1`, a tie, and `m - 1` is odd
      have hfl : ⌊x⌋ = m - 1 := by
        rw [Int.floor_eq_iff]
        push_cast
        constructor <;> linarith
      unfold roundHalfEven
      rw [hfl]
      have hfrac : x - ((m - 1 : ℤ) : ℚ) = 1 / 2 := by push_cast; linarith
      rw [hfrac]
      have hodd : (m - 1) % 2 ≠ 0 := by omega
      simp [hodd]

theorem roundHalfEven_spec (x : ℚ) :
    |x - roundHalfEven x| < 1 / 2 ∨
      (|x - roundHalfEven x| = 1 / 2 ∧ roundHalfEven x % 2 = 0) := by
  have h1 := Int.floor_le x
  have h2 := Int.lt_floor_add_one x
  unfold roundHalfEven
  split_ifs with ha hb hc
  · left
    rw [abs_lt]; constructor <;> linarith
  · left
    push_cast
    rw [abs_lt]; constructor <;> linarith
  · right
    have : x - (⌊x⌋ : ℚ) = 1 / 2 := le_antisymm (not_lt.mp hb) (not_lt.mp ha)
    exact ⟨by rw [this]; norm_num, hc⟩
  · right
    have : x - (⌊x⌋ : ℚ) = 1 / 2 := le_antisymm (not_lt.mp hb) (not_lt.mp ha)
    refine ⟨?_, by omega⟩
    push_cast
    rw [show x - ((⌊x⌋ : ℚ) + 1) = -(1 / 2) by linarith]
    norm_num

theorem roundHalfEven_neg (x : ℚ) : roundHalfEven (-x) = -roundHalfEven x := by
  apply roundHalfEven_unique
  have hab : |(-x) - ((-roundHalfEven x : ℤ) : ℚ)| = |x - roundHalfEven x| := by
    push_cast
    rw [← abs_neg]
    congr 1
    ring
  rw [hab]
  rcases roundHalfEven_spec x with h | ⟨h, hev⟩
  · exact Or.inl h
  · exact Or.inr ⟨h, by omega⟩

/-- The magnitude of the rounded value does not depend on the sign of the exact
value. -/
theorem fabs_rnd_neg (x : ℚ) : fabs (rnd (-x)) = fabs (rnd x) := by
  unfold rnd
  simp only [abs_neg, neg_div, roundHalfEven_neg, Int.cast_neg, neg_mul]
  split_ifs <;> simp [fabs]

theorem fabs_fsub_comm (u c : Double) : fabs (fsub u c) = fabs (fsub c u) := by
  cases u with
  | nan => cases c <;> rfl
  | inf s =>
    cases c with
    | nan => rfl
    | inf t =>
      by_cases hst : s = t
      · subst hst; simp [fsub]
      · have hts : ¬ t = s := fun h => hst h.symm
        simp [fsub, hst, hts, fabs]
    | fin b => rfl
  | fin a =>
    cases c with
    | nan => rfl
    | inf t => rfl
    | fin b =>
      simp only [fsub]
      rw [← fabs_rnd_neg (a - b), neg_sub]

theorem same_comm (eps u c : Double) : same eps u c = same eps c u := by
  unfold same
  rw [fabs_fsub_comm]

theorem WellFormed.swap {n m p : ℤ} {us cs : List Token} {usr corr : List Double}
    (hwf : WellFormed n m p us cs usr corr) : WellFormed m n p cs us corr usr :=
  { usrCount_int := hwf.corrCount_int
    corrCount_int := hwf.usrCount_int
    paramCount_int := hwf.paramCount_int
    usr_parses := hwf.corr_parses
    corr_parses := hwf.usr_parses
    usr_length := hwf.corr_length
    corr_length := hwf.usr_length }

/-- C13: the verdict is symmetric in the two sequences.  `same(u, c) = same(c, u)`
for all `u`, `c` and `eps`, and on a well-formed input with `paramCount = 1` the run
with the candidate and the reference exchanged, counts included, shows the same
output and exit status. -/
theorem verdict_is_symmetric :
    (∀ eps u c : Double, same eps u c = same eps c u) ∧
    (∀ (n m : ℤ) (us cs : List Token) (e : Token) (tail : List Token)
      (usr corr : List Double) (eps : Double),
      WellFormed n m 1 us cs usr corr → e.toDouble? = some eps →
      run (inputStream n m 1 us cs (e :: tail)) =
        run (inputStream m n 1 cs us (e :: tail))) := by
  refine ⟨same_comm, ?_⟩
  intro n m us cs e tail usr corr eps hwf he
  by_cases hnm : n = m
  · subst hnm
    by_cases hall : ∀ i (hu : i < usr.length) (hc : i < corr.length),
        same eps usr[i] corr[i] = true
    · rw [run_all_same hwf e eps he tail hall,
        run_all_same hwf.swap e eps he tail
          (fun i hc hu => by rw [same_comm]; exact hall i hu hc)]
    · push_neg at hall
      obtain ⟨i, hu, hc, hi⟩ := hall
      have hi' : same eps usr[i] corr[i] = false := by simpa using hi
      rw [run_some_differ hwf e eps he tail i hu hc hi',
        run_some_differ hwf.swap e eps he tail i hc hu (by rw [same_comm]; exact hi')]
  · rw [run_length_mismatch hwf e eps he tail hnm,
      run_length_mismatch hwf.swap e eps he tail (fun h => hnm h.symm)]

/-- C13 at candidate `[1.0, 2.1]`, reference `[1.0, 2.0]`, `eps = 0.05` and the same
with the two sequences exchanged. -/
theorem verdict_is_symmetric_witness :
    run (inputStream 2 2 1 [Token.real 1, Token.real (21 / 10)]
        [Token.real 1, Token.real 2] [Token.real (1 / 20)]) =
      run (inputStream 2 2 1 [Token.real 1, Token.real 2]
        [Token.real 1, Token.real (21 / 10)] [Token.real (1 / 20)]) :=
  verdict_is_symmetric.2 2 2 [Token.real 1, Token.real (21 / 10)]
    [Token.real 1, Token.real 2] (Token.real (1 / 20)) []
    [Double.fin 1, Double.fin (4728779608739021 / 2 ^ 51)] [Double.fin 1, Double.fin 2]
    (Double.fin (3602879701896397 / 2 ^ 56))
    { usrCount_int := by unfold IsInt32; norm_num
      corrCount_int := by unfold IsInt32; norm_num
      paramCount_int := by unfold IsInt32; norm_num
      usr_parses := by
        simp [Parses, toDouble?_real _ _ rnd_one, toDouble?_real _ _ rnd_two_and_tenth]
      corr_parses := by
        simp [Parses, toDouble?_real _ _ rnd_one, toDouble?_real _ _ rnd_two]
      usr_length := rfl
      corr_length := rfl }
    (toDouble?_real _ _ rnd_twentieth)

/-! ## The tolerance -/

theorem fle_trans {a b c : Double} (hab : fle a b = true) (hbc : fle b c = true) :
    fle a c = true := by
  cases a <;> cases b <;> cases c <;> simp_all [fle]
  · rename_i s t r
    cases s <;> cases t <;> cases r <;> simp_all
  · exact le_trans hab hbc

theorem same_mono {eps1 eps2 : Double} (h : fle eps1 eps2 = true) (u c : Double)
    (hs : same eps1 u c = true) : same eps2 u c = true :=
  fle_trans hs h

/-- C14: the verdict is monotone in the tolerance.  For the same two sequences and
two tolerances with `eps1 <= eps2`, a verdict `OK` under `eps1` gives `OK` under
`eps2`, and a verdict `WA` under `eps2` gives `WA` under `eps1`. -/
theorem verdict_is_monotone_in_eps (n m : ℤ) (us cs : List Token) (e1 e2 : Token)
    (tail : List Token) (usr corr : List Double) (eps1 eps2 : Double)
    (hwf : WellFormed n m 1 us cs usr corr) (he1 : e1.toDouble? = some eps1)
    (he2 : e2.toDouble? = some eps2) (hle : fle eps1 eps2 = true) :
    (run (inputStream n m 1 us cs (e1 :: tail)) = Except.ok ("OK\n", 0) →
      run (inputStream n m 1 us cs (e2 :: tail)) = Except.ok ("OK\n", 0)) ∧
    (run (inputStream n m 1 us cs (e2 :: tail)) = Except.ok ("WA\n", 0) →
      run (inputStream n m 1 us cs (e1 :: tail)) = Except.ok ("WA\n", 0)) := by
  by_cases hnm : n = m
  · subst hnm
    by_cases hall : ∀ i (hu : i < usr.length) (hc : i < corr.length),
        same eps1 usr[i] corr[i] = true
    · have h2 := run_all_same hwf e2 eps2 he2 tail
        (fun i hu hc => same_mono hle _ _ (hall i hu hc))
      refine ⟨fun _ => h2, fun hwa => ?_⟩
      rw [h2] at hwa
      simp at hwa
    · push_neg at hall
      obtain ⟨i, hu, hc, hi⟩ := hall
      have h1 := run_some_differ hwf e1 eps1 he1 tail i hu hc (by simpa using hi)
      refine ⟨fun hok => ?_, fun _ => h1⟩
      rw [h1] at hok
      simp at hok
  · have h1 := run_length_mismatch hwf e1 eps1 he1 tail hnm
    refine ⟨fun hok => ?_, fun _ => h1⟩
    rw [h1] at hok
    simp at hok

/-- C14 at candidate `[1.0, 2.0]`, reference `[1.0, 2.0]`: `OK` under `eps = 0.001`,
hence `OK` under `eps = 0.05`. -/
theorem verdict_is_monotone_in_eps_witness :
    run (inputStream 2 2 1 [Token.real 1, Token.real 2] [Token.real 1, Token.real 2]
      [Token.real (1 / 20)]) = Except.ok ("OK\n", 0) := by
  have hwf : WellFormed 2 2 1 [Token.real 1, Token.real 2] [Token.real 1, Token.real 2]
      [Double.fin 1, Double.fin 2] [Double.fin 1, Double.fin 2] :=
    { usrCount_int := by unfold IsInt32; norm_num
      corrCount_int := by unfold IsInt32; norm_num
      paramCount_int := by unfold IsInt32; norm_num
      usr_parses := by
        simp [Parses, toDouble?_real _ _ rnd_one, toDouble?_real _ _ rnd_two]
      corr_parses := by
        simp [Parses, toDouble?_real _ _ rnd_one, toDouble?_real _ _ rnd_two]
      usr_length := rfl
      corr_length := rfl }
  have hok := run_all_same hwf (Token.real (1 / 1000)) _
    (toDouble?_real _ _ rnd_thousandth) []
    (by
      intro i hu hc
      have hi : i < 2 := hu
      interval_cases i <;> simp [same, fsub, fabs, fle, rnd_zero] <;> positivity)
  exact (verdict_is_monotone_in_eps 2 2 [Token.real 1, Token.real 2]
    [Token.real 1, Token.real 2] (Token.real (1 / 1000)) (Token.real (1 / 20)) []
    [Double.fin 1, Double.fin 2] [Double.fin 1, Double.fin 2] _ _ hwf
    (toDouble?_real _ _ rnd_thousandth) (toDouble?_real _ _ rnd_twentieth)
    (by simp only [fle]; norm_num)).1 hok

/-- With a tolerance below zero no pair passes `same`: the magnitude `abs(u - c)` is
never below zero. -/
theorem same_eq_false_of_neg (eps : Double) (hneg : fgt (Double.fin 0) eps = true)
    (u c : Double) : same eps u c = false := by
  unfold same
  cases hd : fabs (fsub u c) with
  | nan => cases eps <;> rfl
  | inf s =>
    have hs : s = false := by
      cases hx : fsub u c <;> rw [hx] at hd <;> simp [fabs] at hd
      exact hd
    subst hs
    cases eps <;> simp_all [fgt, fle]
  | fin y =>
    have hy : 0 ≤ y := by
      cases hx : fsub u c <;> rw [hx] at hd <;> simp [fabs] at hd
      rw [← hd]
      exact abs_nonneg _
    cases eps with
    | nan => simp [fgt] at hneg
    | inf t => simp_all [fgt, fle]
    | fin v =>
      simp only [fgt, decide_eq_true_eq] at hneg
      simp only [fle, decide_eq_false_iff_not, not_le]
      linarith

/-- The literal `-0.5` is a binary64 value. -/
theorem rnd_neg_half : rnd (-1 / 2) = Double.fin (-1 / 2) := by
  have habs : |(-1 / 2 : ℚ)| = 1 / 2 := by
    rw [abs_of_neg (by norm_num)]
    norm_num
  have h := rnd_eq_fin (-1 / 2) (-1) (-2 ^ 52) (by rw [habs]; norm_num)
    (by rw [habs]; norm_num) (by norm_num) (by norm_num) (by norm_num [abs_lt])
  rw [h]
  norm_num

/-- C15: a tolerance below zero is not rejected.  With `paramCount = 1` and
`eps < 0`, every input with `usrCount = corrCount >= 1` gets the verdict `WA`, also
when the candidate and the reference are identical, and the input with both
sequences empty gets the verdict `OK`; the exit status is 0 in both cases. -/
theorem negative_eps_is_not_rejected (e : Token) (eps : Double) (tail : List Token)
    (he : e.toDouble? = some eps) (hneg : fgt (Double.fin 0) eps = true) :
    (∀ (n : ℤ) (us cs : List Token) (usr corr : List Double), 1 ≤ n →
      WellFormed n n 1 us cs usr corr →
      run (inputStream n n 1 us cs (e :: tail)) = Except.ok ("WA\n", 0)) ∧
    run (inputStream 0 0 1 [] [] (e :: tail)) = Except.ok ("OK\n", 0) := by
  constructor
  · intro n us cs usr corr hn hwf
    have hu : 0 < usr.length := by rw [hwf.usr_length]; omega
    have hc : 0 < corr.length := by rw [hwf.corr_length]; omega
    exact run_some_differ hwf e eps he tail 0 hu hc (same_eq_false_of_neg eps hneg _ _)
  · exact @run_all_same 0 [] [] [] []
      { usrCount_int := by unfold IsInt32; norm_num
        corrCount_int := by unfold IsInt32; norm_num
        paramCount_int := by unfold IsInt32; norm_num
        usr_parses := rfl
        corr_parses := rfl
        usr_length := rfl
        corr_length := rfl }
      e eps he tail (fun i hu _ => absurd hu (Nat.not_lt_zero i))

/-- C15 at `eps = -0.5`: candidate `[1.0]` against the identical reference `[1.0]`
gets `WA`, and the two empty sequences get `OK`. -/
theorem negative_eps_is_not_rejected_witness :
    run (inputStream 1 1 1 [Token.real 1] [Token.real 1] [Token.real (-1 / 2)])
        = Except.ok ("WA\n", 0) ∧
      run (inputStream 0 0 1 [] [] [Token.real (-1 / 2)]) = Except.ok ("OK\n", 0) :=
  have h := negative_eps_is_not_rejected (Token.real (-1 / 2)) (Double.fin (-1 / 2)) []
    (toDouble?_real _ _ rnd_neg_half) (by simp only [fgt]; norm_num)
  ⟨h.1 1 [Token.real 1] [Token.real 1] [Double.fin 1] [Double.fin 1] (by decide)
      { usrCount_int := by unfold IsInt32; norm_num
        corrCount_int := by unfold IsInt32; norm_num
        paramCount_int := by unfold IsInt32; norm_num
        usr_parses := by simp [Parses, toDouble?_real _ _ rnd_one]
        corr_parses := by simp [Parses, toDouble?_real _ _ rnd_one]
        usr_length := rfl
        corr_length := rfl },
    h.2⟩

end Checker
